import Mathlib

/-!
Wizard duel: a shallow embedding of `ConsoleApplication1.cpp`.

The program is a two-wizard, turn-based duel.  This file embeds the wizard
state, the five spell effects, the default spellbook, the rule-based
strategy and the turn loop, and proves properties of them.

Modelling conventions.

* C++ `int` is a 32-bit two's complement integer.  It is modelled by `Int`,
  and every `+=`, `-=` and unary minus that can leave the range of `int` is
  followed by `wrapInt`, the reduction modulo `2^32` into
  `[-2147483648, 2147483647]`.  Signed overflow is undefined behaviour in
  C++; the wrap is the value the usual builds store.  Statements that are
  meant to hold for every build therefore assume that the sum is
  representable.  Comparisons, `min` and the subtractions of
  `receiveDamage` (which cannot leave the range for `int` operands) are
  exact.  `a / b` on `int` truncates towards zero and is modelled by
  `Int.tdiv`.
* Console output (`cout`) has no influence on the state and is dropped.
* `Wizard&` parameters are modelled by passing the wizard in and returning the
  updated wizard.  `cast(caster, target)` returns the pair
  `(caster, target)`; the two references are assumed to denote distinct
  wizards, as they do at both call sites in `Game::run`.
* A vector access `spells[i]` is modelled by `List.get?`; an access outside the
  vector (undefined behaviour in C++) makes the enclosing function return
  `none`.
* A strategy object is modelled by what one call of `chooseSpellIndex`
  returns.  The interactive strategy reads the console, so its answers are
  arbitrary data: it is covered by quantifying over the answers
  (`TurnStrategy.answering`).
* The loop of `Game::run` appears twice: `Game.runTurns` follows it turn by
  turn along a finite schedule of strategy answers, and `Game.run` follows it
  round by round for two fixed strategy objects and a bound on the number of
  iterations.
-/

namespace WizardDuel

/-! ## Configuration -/

namespace Config

def INITIAL_HEALTH : Int := 100
def INITIAL_MANA : Int := 50

def FIREBALL_DAMAGE : Int := 25
def FIREBALL_COST : Int := 10

def ICE_SPIKE_DAMAGE : Int := 15
def ICE_SPIKE_COST : Int := 6

def HEAL_AMOUNT : Int := 20
def HEAL_COST : Int := 8

def SHIELD_AMOUNT : Int := 18
def SHIELD_COST : Int := 7

def MANA_DRAIN_AMOUNT : Int := 12
def MANA_DRAIN_COST : Int := 5

def MANA_REGEN_PER_TURN : Int := 4

def MANA_REGEN_SPELL_AMOUNT : Int := 15
def MANA_REGEN_SPELL_COST : Int := 1

end Config

/-! ## Machine integers -/

/-- The value of `numeric_limits<int>::max()` for a 32-bit `int`. -/
def INT_MAX : Int := 2147483647

/-- The value of `numeric_limits<int>::min()` for a 32-bit `int`. -/
def INT_MIN : Int := -2147483648

/-- The 32-bit `int` stored when the exact result of an operation is `x`:
`x` itself when it is representable, otherwise `x` reduced modulo `2^32`
into the range of `int`. -/
def wrapInt (x : Int) : Int :=
  (x + 2147483648) % 4294967296 - 2147483648

/-! ## Spells (data) -/

/-- The five concrete subclasses of `Spell`; each carries the base-class fields
`name_` and `manaCost_` and its own magnitude field. -/
inductive Spell where
  | DamageSpell (name : String) (cost : Int) (damage : Int)
  | HealSpell (name : String) (cost : Int) (healAmount : Int)
  | ShieldSpell (name : String) (cost : Int) (shieldAmount : Int)
  | ManaDrainSpell (name : String) (cost : Int) (drainAmount : Int)
  | ManaRegenSpell (name : String) (cost : Int) (manaRestore : Int)
  deriving DecidableEq

/-- The accessor `Spell::name()`. -/
def Spell.name : Spell → String
  | .DamageSpell n _ _ => n
  | .HealSpell n _ _ => n
  | .ShieldSpell n _ _ => n
  | .ManaDrainSpell n _ _ => n
  | .ManaRegenSpell n _ _ => n

/-- The accessor `Spell::manaCost()`. -/
def Spell.manaCost : Spell → Int
  | .DamageSpell _ c _ => c
  | .HealSpell _ c _ => c
  | .ShieldSpell _ c _ => c
  | .ManaDrainSpell _ c _ => c
  | .ManaRegenSpell _ c _ => c

/-! ## Wizard -/

/-- The private fields of `class Wizard`. -/
structure Wizard where
  name_ : String
  health_ : Int
  mana_ : Int
  shield_ : Int
  spellBook_ : List Spell
  deriving DecidableEq

namespace Wizard

/-- The constructor `Wizard(string name)`. -/
def mk0 (name : String) : Wizard :=
  ⟨name, Config.INITIAL_HEALTH, Config.INITIAL_MANA, 0, []⟩

def health (w : Wizard) : Int := w.health_
def mana (w : Wizard) : Int := w.mana_
def shield (w : Wizard) : Int := w.shield_
def isAlive (w : Wizard) : Bool := decide (w.health_ > 0)

def hasEnoughMana (w : Wizard) (cost : Int) : Bool := decide (w.mana_ ≥ cost)

/-- Body of `Wizard::spendMana`: `mana_ -= cost; if (mana_ < 0) mana_ = 0;` -/
def spendMana (w : Wizard) (cost : Int) : Wizard :=
  let m := wrapInt (w.mana_ - cost)
  { w with mana_ := if m < 0 then 0 else m }

/-- Body of `Wizard::regenerateMana`: `mana_ += amount;` then the clamp
`if (mana_ > INITIAL_MANA) mana_ = INITIAL_MANA;` -/
def regenerateMana (w : Wizard) (amount : Int) : Wizard :=
  let m := wrapInt (w.mana_ + amount)
  { w with mana_ := if m > Config.INITIAL_MANA then Config.INITIAL_MANA else m }

/-- The body of `Wizard::receiveDamage`: early return, shield absorption, then
the clamped health reduction.  For `int` operands none of the three
subtractions can leave the range of `int`: `absorbed` lies between 1 and
both `shield_` and `remaining`, and `health_ - remaining` is a positive `int`
minus a positive `int`. -/
def receiveDamage (w : Wizard) (amount : Int) : Wizard :=
  if amount ≤ 0 ∨ !w.isAlive then w
  else
    let remaining := amount
    -- `if (shield_ > 0) { absorbed = min(shield_, remaining); ... }`
    let st : Int × Int :=
      if w.shield_ > 0 then
        let absorbed := min w.shield_ remaining
        (w.shield_ - absorbed, remaining - absorbed)
      else (w.shield_, remaining)
    -- `if (remaining > 0) { health_ -= remaining; if (health_ < 0) health_ = 0; }`
    if st.2 > 0 then
      let h := w.health_ - st.2
      { w with shield_ := st.1, health_ := if h < 0 then 0 else h }
    else
      { w with shield_ := st.1 }

/-- Body of `Wizard::heal`: `if (!isAlive()) return; health_ += amount;` then
the clamp `if (health_ > INITIAL_HEALTH) health_ = INITIAL_HEALTH;` -/
def heal (w : Wizard) (amount : Int) : Wizard :=
  if !w.isAlive then w
  else
    let h := wrapInt (w.health_ + amount)
    { w with health_ := if h > Config.INITIAL_HEALTH then Config.INITIAL_HEALTH else h }

/-- Body of `Wizard::addShield`: `if (!isAlive()) return; shield_ += amount;` -/
def addShield (w : Wizard) (amount : Int) : Wizard :=
  if !w.isAlive then w
  else { w with shield_ := wrapInt (w.shield_ + amount) }

/-- Body of `Wizard::changeMana`: `mana_ += delta; if (mana_ < 0) mana_ = 0;`
then `if (mana_ > INITIAL_MANA) mana_ = INITIAL_MANA;` -/
def changeMana (w : Wizard) (delta : Int) : Wizard :=
  let m := wrapInt (w.mana_ + delta)
  let m1 := if m < 0 then 0 else m
  { w with mana_ := if m1 > Config.INITIAL_MANA then Config.INITIAL_MANA else m1 }

def addSpell (w : Wizard) (spell : Spell) : Wizard :=
  { w with spellBook_ := w.spellBook_ ++ [spell] }

def spellBook (w : Wizard) : List Spell := w.spellBook_

end Wizard

/-! ## Spell effects -/

namespace Spell

/-- The method `Spell::payMana`. -/
def payMana (s : Spell) (caster : Wizard) : Wizard :=
  caster.spendMana s.manaCost

/-- The virtual method `cast(Wizard& caster, Wizard& target)`, one branch per
overriding subclass.  The result is `(caster, target)` after the call. -/
def cast (s : Spell) (caster target : Wizard) : Wizard × Wizard :=
  match s with
  | .DamageSpell _ _ damage =>
    if !caster.hasEnoughMana s.manaCost then (caster, target)
    else
      let caster1 := s.payMana caster
      let target1 := target.receiveDamage damage
      (caster1, target1)
  | .HealSpell _ _ healAmount =>
    if !caster.hasEnoughMana s.manaCost then (caster, target)
    else
      let caster1 := s.payMana caster
      let caster2 := caster1.heal healAmount
      (caster2, target)
  | .ShieldSpell _ _ shieldAmount =>
    if !caster.hasEnoughMana s.manaCost then (caster, target)
    else
      let caster1 := s.payMana caster
      let caster2 := caster1.addShield shieldAmount
      (caster2, target)
  | .ManaDrainSpell _ _ drainAmount =>
    if !caster.hasEnoughMana s.manaCost then (caster, target)
    else
      let caster1 := s.payMana caster
      let actualDrain := min drainAmount target.mana
      let target1 := target.changeMana (wrapInt (-actualDrain))
      let caster2 := caster1.changeMana (Int.tdiv actualDrain 2)
      (caster2, target1)
  | .ManaRegenSpell _ _ manaRestore =>
    if !caster.hasEnoughMana s.manaCost then (caster, target)
    else
      let caster1 := s.payMana caster
      let caster2 := caster1.changeMana manaRestore
      (caster2, target)

end Spell

/-! ## SpellFactory -/

namespace SpellFactory

/-- The function `SpellFactory::createDefaultSpellBook`: six `push_back`s in this order. -/
def createDefaultSpellBook : List Spell :=
  [ Spell.DamageSpell "Fireball" Config.FIREBALL_COST Config.FIREBALL_DAMAGE,
    Spell.DamageSpell "Ice Spike" Config.ICE_SPIKE_COST Config.ICE_SPIKE_DAMAGE,
    Spell.HealSpell "Healing Light" Config.HEAL_COST Config.HEAL_AMOUNT,
    Spell.ShieldSpell "Magic Shield" Config.SHIELD_COST Config.SHIELD_AMOUNT,
    Spell.ManaDrainSpell "Mana Drain" Config.MANA_DRAIN_COST Config.MANA_DRAIN_AMOUNT,
    Spell.ManaRegenSpell "Mana Surge" Config.MANA_REGEN_SPELL_COST
      Config.MANA_REGEN_SPELL_AMOUNT ]

end SpellFactory

/-! ## Turn strategies -/

/-- The interface `TurnStrategy`: one call of `chooseSpellIndex(self, opponent,
spells)`.  The result is `none` when the call runs into an out-of-bounds
vector access. -/
abbrev TurnStrategy := Wizard → Wizard → List Spell → Option Int

namespace AiTurnStrategy

/-- The loop of `findByName`, entered at index `i` with `rest` the spells from
index `i` on. -/
def findByNameLoop (name : String) : List Spell → Nat → Int
  | [], _ => -1
  | s :: rest, i => if s.name = name then (i : Int) else findByNameLoop name rest (i + 1)

/-- The function `AiTurnStrategy::findByName`. -/
def findByName (spells : List Spell) (name : String) : Int :=
  findByNameLoop name spells 0

/-- The loop of `findCheapestAffordableDamage`, entered at index `i` with loop
state `(bestIndex, bestCost)`. -/
def findCheapestAffordableDamageLoop (self : Wizard) :
    List Spell → Nat → Int × Int → Int × Int
  | [], _, best => best
  | s :: rest, i, best =>
    let isDamage : Bool := decide (s.name = "Fireball") || decide (s.name = "Ice Spike")
    if !isDamage then findCheapestAffordableDamageLoop self rest (i + 1) best
    else if !self.hasEnoughMana s.manaCost then
      findCheapestAffordableDamageLoop self rest (i + 1) best
    else if s.manaCost < best.2 then
      findCheapestAffordableDamageLoop self rest (i + 1) ((i : Int), s.manaCost)
    else findCheapestAffordableDamageLoop self rest (i + 1) best

/-- The function `AiTurnStrategy::findCheapestAffordableDamage`. -/
def findCheapestAffordableDamage (spells : List Spell) (self : Wizard) : Int :=
  (findCheapestAffordableDamageLoop self spells 0 (-1, INT_MAX)).1

/-- The loop of `findCheapestSpell`, entered at index `i` with loop state
`(bestIndex, bestCost)`. -/
def findCheapestSpellLoop : List Spell → Nat → Int × Int → Int × Int
  | [], _, best => best
  | s :: rest, i, best =>
    if s.manaCost < best.2 then findCheapestSpellLoop rest (i + 1) ((i : Int), s.manaCost)
    else findCheapestSpellLoop rest (i + 1) best

/-- The function `AiTurnStrategy::findCheapestSpell`; it reads `spells[0]`
before the loop, which is out of bounds for an empty vector. -/
def findCheapestSpell (spells : List Spell) : Option Int :=
  match spells with
  | [] => none
  | s0 :: rest => some (findCheapestSpellLoop rest 1 (0, s0.manaCost)).1

/-- The condition `cond && index != -1 &&
self.hasEnoughMana(spells[index]->manaCost())` with the short-circuit
evaluation of `&&`: the vector is read only when the first two conjuncts
hold. -/
def ruleFires (cond : Bool) (index : Int) (self : Wizard) (spells : List Spell) :
    Option Bool :=
  if cond && decide (index ≠ -1) then
    if index < 0 then none
    else
      match spells.get? index.toNat with
      | none => none
      | some s => some (self.hasEnoughMana s.manaCost)
  else some false

/-- The method `AiTurnStrategy::chooseSpellIndex`. -/
def chooseSpellIndex : TurnStrategy := fun self opponent spells =>
  let healIndex := findByName spells "Healing Light"
  match ruleFires (decide (self.health ≤ 40)) healIndex self spells with
  | none => none
  | some true => some healIndex
  | some false =>
    let shieldIndex := findByName spells "Magic Shield"
    match ruleFires (decide (self.shield = 0)) shieldIndex self spells with
    | none => none
    | some true => some shieldIndex
    | some false =>
      let drainIndex := findByName spells "Mana Drain"
      match ruleFires (decide (opponent.mana ≥ 15)) drainIndex self spells with
      | none => none
      | some true => some drainIndex
      | some false =>
        let damageIndex := findCheapestAffordableDamage spells self
        if damageIndex ≠ -1 then some damageIndex
        else findCheapestSpell spells

end AiTurnStrategy

/-! ## Game -/

/-- The two wizards owned by `class Game`.  The strategy objects are passed to
the loop explicitly. -/
structure Game where
  player_ : Wizard
  enemy_ : Wizard
  deriving DecidableEq

namespace Game

/-- The method `Game::playTurn(current, opponent, strategy)`; returns
`(current, opponent)` after the turn. -/
def playTurn (current opponent : Wizard) (strategy : TurnStrategy) :
    Option (Wizard × Wizard) :=
  let spells := current.spellBook
  if spells.isEmpty then some (current, opponent)
  else
    match strategy current opponent spells with
    | none => none
    | some index =>
      if index < 0 ∨ index ≥ (spells.length : Int) then some (current, opponent)
      else
        match spells.get? index.toNat with
        | none => none
        | some spell =>
          let r := spell.cast current opponent
          some (r.1.regenerateMana Config.MANA_REGEN_PER_TURN, r.2)

/-- The constructor `Game()`: two fresh wizards, each given the six spells of
its own default spellbook by `addSpell`. -/
def new : Game :=
  ⟨SpellFactory.createDefaultSpellBook.foldl Wizard.addSpell (Wizard.mk0 "Player"),
   SpellFactory.createDefaultSpellBook.foldl Wizard.addSpell (Wizard.mk0 "Enemy")⟩

/-- The `while` loop of `Game::run`, driven by a finite schedule of strategy
objects: the head of `turns` answers the next call of `chooseSpellIndex`.
`atLoopHead = true` is the program point of the loop condition (the player
moves next), `false` is the point just after the `break` check (the enemy
moves next).  The function returns the state at which the loop has exited or
the schedule is used up. -/
def runTurns : List TurnStrategy → Bool → Game → Option Game
  | [], _, g => some g
  | s :: rest, true, g =>
    if g.player_.isAlive && g.enemy_.isAlive then
      match playTurn g.player_ g.enemy_ s with
      | none => none
      | some r =>
        if !r.2.isAlive then some ⟨r.1, r.2⟩
        else runTurns rest false ⟨r.1, r.2⟩
    else some g
  | s :: rest, false, g =>
    match playTurn g.enemy_ g.player_ s with
    | none => none
    | some r => runTurns rest true ⟨r.2, r.1⟩

/-- The `while` loop of `Game::run` with the two strategy objects of the game
fixed, executed for at most `rounds` iterations of the loop body.  The result
is the state at which the loop has exited, or the state after `rounds`
iterations when it has not exited by then. -/
def run (playerStrategy enemyStrategy : TurnStrategy) : Nat → Game → Option Game
  | 0, g => some g
  | rounds + 1, g =>
    if g.player_.isAlive && g.enemy_.isAlive then
      match playTurn g.player_ g.enemy_ playerStrategy with
      | none => none
      | some r =>
        if !r.2.isAlive then some ⟨r.1, r.2⟩
        else
          match playTurn r.2 r.1 enemyStrategy with
          | none => none
          | some r2 => run playerStrategy enemyStrategy rounds ⟨r2.2, r2.1⟩
    else some g

/-- The three messages of `Game::printResult`. -/
inductive Result where
  | playerWins
  | enemyWins
  | draw
  deriving DecidableEq

/-- The branch taken by `Game::printResult`. -/
def printResult (g : Game) : Result :=
  if g.player_.isAlive && !g.enemy_.isAlive then Result.playerWins
  else if !g.player_.isAlive && g.enemy_.isAlive then Result.enemyWins
  else Result.draw

end Game

/-! ## Specification-side definitions -/

/-- The combatant invariant: `0 ≤ health ≤ 100`, `0 ≤ mana ≤ 50`,
`shield ≥ 0`. -/
def Wizard.Inv (w : Wizard) : Prop :=
  0 ≤ w.health ∧ w.health ≤ 100 ∧ 0 ≤ w.mana ∧ w.mana ≤ 50 ∧ 0 ≤ w.shield

instance (w : Wizard) : Decidable w.Inv := by
  unfold Wizard.Inv; infer_instance

/-- Reference definition of `receiveDamage`, written from the words of the
specification: nothing happens for a non-positive amount or a dead wizard;
otherwise the shield absorbs `min(shield, amount)` and the rest is taken from
the health, which is clamped at zero. -/
def receiveDamageSpec (w : Wizard) (amount : Int) : Wizard :=
  if amount ≤ 0 ∨ w.health ≤ 0 then w
  else
    { w with
      shield_ := w.shield - min w.shield amount,
      health_ := max 0 (w.health - (amount - min w.shield amount)) }

/-- A strategy object whose call returns the integer `f self opponent spells`.
Every strategy whose call returns at all is of this form; the answer may be
any integer, inside the spellbook or not. -/
def TurnStrategy.answering (f : Wizard → Wizard → List Spell → Int) : TurnStrategy :=
  fun self opponent spells => some (f self opponent spells)

/-- A spell that `findCheapestAffordableDamage` considers: it is named
"Fireball" or "Ice Spike" and its cost is at most the mana of `self`. -/
def AffordableDamage (self : Wizard) (s : Spell) : Prop :=
  (s.name = "Fireball" ∨ s.name = "Ice Spike") ∧ s.manaCost ≤ self.mana

instance (self : Wizard) (s : Spell) : Decidable (AffordableDamage self s) := by
  unfold AffordableDamage; infer_instance

/-- The common shape of the two cheapest-spell loops: scan `rest` from index
`i` with loop state `(bestIndex, bestCost)` and take over every spell that
passes the filter `p` and is strictly cheaper than the best so far. -/
def cheapestLoop (p : Spell → Prop) [DecidablePred p] :
    List Spell → Nat → Int × Int → Int × Int
  | [], _, best => best
  | s :: rest, i, best =>
    if p s ∧ s.manaCost < best.2 then cheapestLoop p rest (i + 1) ((i : Int), s.manaCost)
    else cheapestLoop p rest (i + 1) best

/-- The state of the duel between two rule-based strategies at the head of
the loop after 96 rounds: player 38 health, 8 mana, no shield; enemy 45
health, 7 mana, shield 3. -/
def aiCycleState : Game :=
  ⟨⟨"Player", 38, 8, 0, SpellFactory.createDefaultSpellBook⟩,
   ⟨"Enemy", 45, 7, 3, SpellFactory.createDefaultSpellBook⟩⟩

/-- A schedule of `4 * k` in-range answers: in each block the player casts
"Magic Shield" (index 3), the enemy "Mana Surge" (index 5), the player
"Mana Surge" and the enemy "Mana Surge" again. -/
def shieldSchedule : Nat → List (Wizard → Wizard → List Spell → Int)
  | 0 => []
  | k + 1 =>
    (fun _ _ _ => 3) :: (fun _ _ _ => 5) :: (fun _ _ _ => 5) :: (fun _ _ _ => 5) ::
      shieldSchedule k

/-- The state of a default duel in which both wizards have full health and
mana, the enemy has no shield and the player has shield `s`. -/
def shieldState (s : Int) : Game :=
  ⟨⟨"Player", 100, 50, s, SpellFactory.createDefaultSpellBook⟩,
   ⟨"Enemy", 100, 50, 0, SpellFactory.createDefaultSpellBook⟩⟩

/-- The player's shield after `k` blocks of `shieldSchedule`, starting from
shield `s`: each block stores `shield_ + 18` in the 32-bit field. -/
def shieldAfter : Nat → Int → Int
  | 0, s => s
  | k + 1, s => shieldAfter k (wrapInt (s + 18))

/-- The bounds on health and mana: `0 ≤ health ≤ 100` and `0 ≤ mana ≤ 50`. -/
def Wizard.Sound (w : Wizard) : Prop :=
  0 ≤ w.health ∧ w.health ≤ 100 ∧ 0 ≤ w.mana ∧ w.mana ≤ 50

instance (w : Wizard) : Decidable w.Sound := by
  unfold Wizard.Sound; infer_instance

/-- The state of one duellist during a default duel: the bounds on health and
mana, the default spellbook, and, as long as the bound `B` is itself an
`int`, a shield between 0 and `B`. -/
def Wizard.Ok (w : Wizard) (B : Int) : Prop :=
  w.Sound ∧ w.spellBook_ = SpellFactory.createDefaultSpellBook ∧
    (B ≤ INT_MAX → 0 ≤ w.shield_ ∧ w.shield_ ≤ B)

/-! ## Machine integers -/

/-- A representable exact result is stored unchanged. -/
theorem wrapInt_of_inRange (x : Int) (h0 : INT_MIN ≤ x) (h1 : x ≤ INT_MAX) :
    wrapInt x = x := by
  simp only [wrapInt, INT_MIN, INT_MAX] at *
  omega

/-- The stored value is always an `int`. -/
theorem wrapInt_range (x : Int) : INT_MIN ≤ wrapInt x ∧ wrapInt x ≤ INT_MAX := by
  simp only [wrapInt, INT_MIN, INT_MAX]
  omega

/-! ## Wizard mutators -/

/-- C2. Casting with insufficient mana changes nothing: for each of the five
spell kinds, every cost and magnitude and every caster and target, if the
caster's mana is below the spell's cost then `cast` returns caster and target
exactly as they were (all fields, so in particular health, mana, shield). -/
theorem cast_insufficient_mana_unchanged (s : Spell) (caster target : Wizard)
    (h : caster.mana < s.manaCost) : s.cast caster target = (caster, target) := by
  have hm : caster.hasEnoughMana s.manaCost = false := by
    simp only [Wizard.hasEnoughMana, Wizard.mana] at *
    simpa using h
  cases s <;> simp [Spell.cast, hm]

theorem cast_insufficient_mana_unchanged_witness :
    (Wizard.mk "Player" 100 9 0 []).mana < (Spell.DamageSpell "Fireball" 10 25).manaCost ∧
    (Spell.DamageSpell "Fireball" 10 25).cast
        (Wizard.mk "Player" 100 9 0 []) (Wizard.mk "Enemy" 60 50 5 [])
      = (Wizard.mk "Player" 100 9 0 [], Wizard.mk "Enemy" 60 50 5 []) :=
  ⟨by decide,
   cast_insufficient_mana_unchanged (Spell.DamageSpell "Fireball" 10 25)
     (Wizard.mk "Player" 100 9 0 []) (Wizard.mk "Enemy" 60 50 5 []) (by decide)⟩

/-- Counterexample to C3 as stated: a wizard with health -3 and shield 0 (so
`shield ≥ 0`) receives 10 damage.  The call returns at once because the
wizard is not alive, and the health is -3 afterwards, which is negative. -/
theorem receiveDamage_negative_health_counterexample :
    0 ≤ (Wizard.mk "Enemy" (-3) 50 0 []).shield ∧
    (Wizard.mk "Enemy" (-3) 50 0 []).receiveDamage 10 = Wizard.mk "Enemy" (-3) 50 0 [] ∧
    ((Wizard.mk "Enemy" (-3) 50 0 []).receiveDamage 10).health = -3 ∧
    ¬ (0 ≤ ((Wizard.mk "Enemy" (-3) 50 0 []).receiveDamage 10).health) := by
  decide

/-- C3 (amended). `receiveDamage` agrees with its reference definition for
every wizard with `shield ≥ 0` and every integer amount: unchanged if
`amount ≤ 0` or `health ≤ 0`, otherwise `shield - min(shield, amount)` and
`max(0, health - (amount - min(shield, amount)))`, with mana untouched.
In particular health drops only when `amount > shield`, the shield is not
negative afterwards, and health is not negative afterwards whenever damage is
applied (`amount > 0` and `health > 0`) or health was not negative before. -/
theorem receiveDamage_eq_spec (w : Wizard) (amount : Int) (hs : 0 ≤ w.shield) :
    w.receiveDamage amount = receiveDamageSpec w amount ∧
    (w.receiveDamage amount).mana = w.mana ∧
    ((w.receiveDamage amount).health < w.health → w.shield < amount) ∧
    ((w.receiveDamage amount).health ≤ w.health) ∧
    0 ≤ (w.receiveDamage amount).shield ∧
    (0 < amount ∧ 0 < w.health → 0 ≤ (w.receiveDamage amount).health) ∧
    (0 ≤ w.health → 0 ≤ (w.receiveDamage amount).health) := by
  obtain ⟨n, h, m, sh, bk⟩ := w
  simp only [Wizard.shield] at hs
  simp only [Wizard.receiveDamage, receiveDamageSpec, Wizard.isAlive, Wizard.health,
    Wizard.shield, Wizard.mana]
  split_ifs <;> simp_all <;> omega

theorem receiveDamage_eq_spec_witness :
    0 ≤ (Wizard.mk "Enemy" 60 50 18 []).shield ∧
    ((Wizard.mk "Enemy" 60 50 18 []).receiveDamage 25
        = receiveDamageSpec (Wizard.mk "Enemy" 60 50 18 []) 25 ∧
      ((Wizard.mk "Enemy" 60 50 18 []).receiveDamage 25).mana
        = (Wizard.mk "Enemy" 60 50 18 []).mana ∧
      (((Wizard.mk "Enemy" 60 50 18 []).receiveDamage 25).health
          < (Wizard.mk "Enemy" 60 50 18 []).health →
        (Wizard.mk "Enemy" 60 50 18 []).shield < 25) ∧
      (((Wizard.mk "Enemy" 60 50 18 []).receiveDamage 25).health
        ≤ (Wizard.mk "Enemy" 60 50 18 []).health) ∧
      0 ≤ ((Wizard.mk "Enemy" 60 50 18 []).receiveDamage 25).shield ∧
      ((0 : Int) < 25 ∧ 0 < (Wizard.mk "Enemy" 60 50 18 []).health →
        0 ≤ ((Wizard.mk "Enemy" 60 50 18 []).receiveDamage 25).health) ∧
      (0 ≤ (Wizard.mk "Enemy" 60 50 18 []).health →
        0 ≤ ((Wizard.mk "Enemy" 60 50 18 []).receiveDamage 25).health)) :=
  ⟨by decide, receiveDamage_eq_spec (Wizard.mk "Enemy" 60 50 18 []) 25 (by decide)⟩

/-- Counterexample to C6 as stated: from the fresh state (health 100, mana 50,
shield 0), which satisfies the invariant, a negative argument takes each of
`spendMana`, `regenerateMana`, `heal` and `addShield` out of the invariant:
`spendMana(-5)` gives mana 55, `regenerateMana(-60)` gives mana -10,
`heal(-200)` gives health -100, `addShield(-5)` gives shield -5.  So does a
positive argument whose sum is not representable in `int`:
`heal(2147483647)` gives health -2147483549, `regenerateMana(2147483647)`
gives mana -2147483599, and `addShield(2147483647)` on shield 18 gives shield
-2147483631. -/
theorem mutators_negative_argument_break_invariant :
    (Wizard.mk0 "Player").Inv ∧
    ((Wizard.mk0 "Player").spendMana (-5)).mana = 55 ∧
    ¬ ((Wizard.mk0 "Player").spendMana (-5)).Inv ∧
    ((Wizard.mk0 "Player").regenerateMana (-60)).mana = -10 ∧
    ¬ ((Wizard.mk0 "Player").regenerateMana (-60)).Inv ∧
    ((Wizard.mk0 "Player").heal (-200)).health = -100 ∧
    ¬ ((Wizard.mk0 "Player").heal (-200)).Inv ∧
    ((Wizard.mk0 "Player").addShield (-5)).shield = -5 ∧
    ¬ ((Wizard.mk0 "Player").addShield (-5)).Inv ∧
    ((Wizard.mk0 "Player").heal 2147483647).health = -2147483549 ∧
    ¬ ((Wizard.mk0 "Player").heal 2147483647).Inv ∧
    ((Wizard.mk0 "Player").regenerateMana 2147483647).mana = -2147483599 ∧
    ¬ ((Wizard.mk0 "Player").regenerateMana 2147483647).Inv ∧
    (Wizard.mk "Player" 100 50 18 []).Inv ∧
    ((Wizard.mk "Player" 100 50 18 []).addShield 2147483647).shield = -2147483631 ∧
    ¬ ((Wizard.mk "Player" 100 50 18 []).addShield 2147483647).Inv := by
  decide

/-- C6 (amended). Every Wizard mutator preserves the combatant invariant for
every argument whose 32-bit sum does not overflow and which, for `spendMana`,
`regenerateMana`, `heal` and `addShield`, is not negative.  From a state with
`0 ≤ health ≤ 100`, `0 ≤ mana ≤ 50`, `shield ≥ 0` the same bounds hold after
`receiveDamage(a)` for every integer `a`; after `changeMana(d)` for every
`d ≥ -2147483648` with `mana + d ≤ 2147483647`; after `spendMana(a)` for
`0 ≤ a ≤ 2147483647`; and after `regenerateMana(a)`, `heal(a)`,
`addShield(a)` for `a ≥ 0` with `mana + a`, `health + a`, `shield + a`
at most 2147483647 respectively. -/
theorem mutators_preserve_invariant (w : Wizard) (hw : w.Inv) :
    (∀ amount : Int, (w.receiveDamage amount).Inv) ∧
    (∀ delta : Int, INT_MIN ≤ delta → w.mana + delta ≤ INT_MAX → (w.changeMana delta).Inv) ∧
    (∀ amount : Int, 0 ≤ amount → amount ≤ INT_MAX → (w.spendMana amount).Inv) ∧
    (∀ amount : Int, 0 ≤ amount → w.mana + amount ≤ INT_MAX →
      (w.regenerateMana amount).Inv) ∧
    (∀ amount : Int, 0 ≤ amount → w.health + amount ≤ INT_MAX → (w.heal amount).Inv) ∧
    (∀ amount : Int, 0 ≤ amount → w.shield + amount ≤ INT_MAX →
      (w.addShield amount).Inv) := by
  obtain ⟨n, h, m, sh, bk⟩ := w
  simp only [Wizard.Inv, Wizard.health, Wizard.mana, Wizard.shield] at hw
  obtain ⟨h0, h1, m0, m1, s0⟩ := hw
  simp only [Wizard.health, Wizard.mana, Wizard.shield]
  refine ⟨fun amount => ?_, fun delta hd0 hd1 => ?_, fun amount ha0 ha1 => ?_,
    fun amount ha0 ha1 => ?_, fun amount ha0 ha1 => ?_, fun amount ha0 ha1 => ?_⟩
  · simp only [Wizard.Inv, Wizard.receiveDamage, Wizard.isAlive, Wizard.health,
      Wizard.mana, Wizard.shield]
    split_ifs <;> simp_all <;> omega
  · have hw := wrapInt_of_inRange (m + delta) (by simp only [INT_MIN] at *; omega) hd1
    simp only [Wizard.Inv, Wizard.changeMana, Wizard.health, Wizard.mana, Wizard.shield,
      Config.INITIAL_MANA, hw]
    refine ⟨h0, h1, ?_, ?_, s0⟩ <;> split_ifs <;> omega
  · have hw := wrapInt_of_inRange (m - amount)
      (by simp only [INT_MIN, INT_MAX] at *; omega) (by simp only [INT_MAX] at *; omega)
    simp only [Wizard.Inv, Wizard.spendMana, Wizard.health, Wizard.mana, Wizard.shield, hw]
    refine ⟨h0, h1, ?_, ?_, s0⟩ <;> split_ifs <;> omega
  · have hw := wrapInt_of_inRange (m + amount) (by simp only [INT_MIN] at *; omega) ha1
    simp only [Wizard.Inv, Wizard.regenerateMana, Wizard.health, Wizard.mana, Wizard.shield,
      Config.INITIAL_MANA, hw]
    refine ⟨h0, h1, ?_, ?_, s0⟩ <;> split_ifs <;> omega
  · have hw := wrapInt_of_inRange (h + amount) (by simp only [INT_MIN] at *; omega) ha1
    simp only [Wizard.Inv, Wizard.heal, Wizard.isAlive, Wizard.health, Wizard.mana,
      Wizard.shield, Config.INITIAL_HEALTH, hw]
    split_ifs <;> first | (simp_all; omega) | simp_all
  · have hw := wrapInt_of_inRange (sh + amount) (by simp only [INT_MIN] at *; omega) ha1
    simp only [Wizard.Inv, Wizard.addShield, Wizard.isAlive, Wizard.health, Wizard.mana,
      Wizard.shield, hw]
    split_ifs <;> first | (simp_all; omega) | simp_all

theorem mutators_preserve_invariant_witness :
    (Wizard.mk "Player" 70 20 4 []).Inv ∧
    ((∀ amount : Int, ((Wizard.mk "Player" 70 20 4 []).receiveDamage amount).Inv) ∧
      (∀ delta : Int, INT_MIN ≤ delta → (Wizard.mk "Player" 70 20 4 []).mana + delta ≤ INT_MAX →
        ((Wizard.mk "Player" 70 20 4 []).changeMana delta).Inv) ∧
      (∀ amount : Int, 0 ≤ amount → amount ≤ INT_MAX →
        ((Wizard.mk "Player" 70 20 4 []).spendMana amount).Inv) ∧
      (∀ amount : Int, 0 ≤ amount → (Wizard.mk "Player" 70 20 4 []).mana + amount ≤ INT_MAX →
        ((Wizard.mk "Player" 70 20 4 []).regenerateMana amount).Inv) ∧
      (∀ amount : Int, 0 ≤ amount → (Wizard.mk "Player" 70 20 4 []).health + amount ≤ INT_MAX →
        ((Wizard.mk "Player" 70 20 4 []).heal amount).Inv) ∧
      (∀ amount : Int, 0 ≤ amount → (Wizard.mk "Player" 70 20 4 []).shield + amount ≤ INT_MAX →
        ((Wizard.mk "Player" 70 20 4 []).addShield amount).Inv)) ∧
    ((0 : Int) ≤ 2147483000 ∧ (Wizard.mk "Player" 70 20 4 []).health + 2147483000 ≤ INT_MAX ∧
      ((Wizard.mk "Player" 70 20 4 []).heal 2147483000).Inv) :=
  ⟨by decide, mutators_preserve_invariant (Wizard.mk "Player" 70 20 4 []) (by decide),
   by decide, by decide,
   (mutators_preserve_invariant (Wizard.mk "Player" 70 20 4 []) (by decide)).2.2.2.2.1
     2147483000 (by decide) (by decide)⟩

/-! ## Mana Drain -/

/-- The mutator `changeMana` is a plain addition when the sum stays inside `[0, 50]`. -/
theorem Wizard.changeMana_in_range (w : Wizard) (delta : Int)
    (h0 : 0 ≤ w.mana_ + delta) (h1 : w.mana_ + delta ≤ 50) :
    w.changeMana delta = { w with mana_ := w.mana_ + delta } := by
  obtain ⟨n, h, m, sh, bk⟩ := w
  simp only at h0 h1
  have hw := wrapInt_of_inRange (m + delta) (by simp only [INT_MIN]; omega)
    (by simp only [INT_MAX]; omega)
  simp only [Wizard.changeMana, Config.INITIAL_MANA, hw]
  split_ifs <;> first | rfl | omega

/-- The successful branch of `ManaDrainSpell::cast`. -/
theorem cast_manaDrain_of_enough (name : String) (cost drainAmount : Int)
    (caster target : Wizard) (hm : caster.hasEnoughMana cost = true) :
    (Spell.ManaDrainSpell name cost drainAmount).cast caster target
      = ((caster.spendMana cost).changeMana (Int.tdiv (min drainAmount target.mana) 2),
         target.changeMana (wrapInt (-(min drainAmount target.mana)))) := by
  simp [Spell.cast, Spell.manaCost, Spell.payMana, hm]

/-- Counterexample to C4 as stated: a Mana Drain spell with cost 5 and drain
amount -10, cast by a caster with 50 mana on a target with 45 mana (so
`caster.mana ≥ cost` and `target.mana ≥ 0`).  Here `actualDrain = min(-10, 45)
= -10`, the claim asks for `target.mana_after = 45 - (-10) = 55`, and the code
leaves the target at 50, the cap of `changeMana`.  The same cap shows for the
default drain amount 12 on a target state with 70 mana: the claim asks for 58
and the code gives 50. -/
theorem manaDrain_target_counterexample :
    ((Wizard.mk "Player" 100 50 0 []).mana ≥ (Spell.ManaDrainSpell "Mana Drain" 5 (-10)).manaCost ∧
      (Wizard.mk "Enemy" 100 45 0 []).mana ≥ 0 ∧
      ((Spell.ManaDrainSpell "Mana Drain" 5 (-10)).cast
        (Wizard.mk "Player" 100 50 0 []) (Wizard.mk "Enemy" 100 45 0 [])).2.mana = 50 ∧
      (Wizard.mk "Enemy" 100 45 0 []).mana
        - min (-10) (Wizard.mk "Enemy" 100 45 0 []).mana = 55) ∧
    ((Wizard.mk "Player" 100 50 0 []).mana ≥ (Spell.ManaDrainSpell "Mana Drain" 5 12).manaCost ∧
      (Wizard.mk "Enemy" 100 70 0 []).mana ≥ 0 ∧
      ((Spell.ManaDrainSpell "Mana Drain" 5 12).cast
        (Wizard.mk "Player" 100 50 0 []) (Wizard.mk "Enemy" 100 70 0 [])).2.mana = 50 ∧
      (Wizard.mk "Enemy" 100 70 0 []).mana
        - min 12 (Wizard.mk "Enemy" 100 70 0 []).mana = 58) := by
  decide

/-- C4 (amended). On a successful Mana Drain cast (`caster.mana ≥ cost`, caster
and target distinct wizards) with a non-negative drain amount and a target
with `0 ≤ target.mana ≤ 50`, the target loses exactly
`actualDrain = min(drainAmount, target.mana_before)` mana, and the target's
health and shield (and every other field) are unchanged. -/
theorem manaDrain_target (name : String) (cost drainAmount : Int) (caster target : Wizard)
    (hcost : caster.mana ≥ cost) (hdrain : 0 ≤ drainAmount)
    (ht0 : 0 ≤ target.mana) (ht1 : target.mana ≤ 50) :
    ((Spell.ManaDrainSpell name cost drainAmount).cast caster target).2.mana
      = target.mana - min drainAmount target.mana ∧
    ((Spell.ManaDrainSpell name cost drainAmount).cast caster target).2.health
      = target.health ∧
    ((Spell.ManaDrainSpell name cost drainAmount).cast caster target).2.shield
      = target.shield ∧
    ((Spell.ManaDrainSpell name cost drainAmount).cast caster target).2
      = { target with mana_ := target.mana - min drainAmount target.mana } := by
  have hm : caster.hasEnoughMana cost = true := by
    simp only [Wizard.hasEnoughMana]; simpa using hcost
  rw [cast_manaDrain_of_enough name cost drainAmount caster target hm]
  simp only [Wizard.mana, Wizard.health, Wizard.shield] at *
  have hmin : min drainAmount target.mana_ ≤ target.mana_ := min_le_right _ _
  have hmin0 : 0 ≤ min drainAmount target.mana_ := le_min hdrain ht0
  rw [wrapInt_of_inRange (-(min drainAmount target.mana_))
    (by simp only [INT_MIN]; omega) (by simp only [INT_MAX]; omega)]
  rw [Wizard.changeMana_in_range target (-(min drainAmount target.mana_))
    (by omega) (by omega)]
  exact ⟨by simp only []; omega, rfl, rfl, by congr 1⟩

theorem manaDrain_target_witness :
    (Wizard.mk "Player" 100 50 0 []).mana ≥ 5 ∧ (0 : Int) ≤ 12 ∧
    0 ≤ (Wizard.mk "Enemy" 100 7 3 []).mana ∧ (Wizard.mk "Enemy" 100 7 3 []).mana ≤ 50 ∧
    (((Spell.ManaDrainSpell "Mana Drain" 5 12).cast
        (Wizard.mk "Player" 100 50 0 []) (Wizard.mk "Enemy" 100 7 3 [])).2.mana
      = (Wizard.mk "Enemy" 100 7 3 []).mana - min 12 (Wizard.mk "Enemy" 100 7 3 []).mana ∧
    ((Spell.ManaDrainSpell "Mana Drain" 5 12).cast
        (Wizard.mk "Player" 100 50 0 []) (Wizard.mk "Enemy" 100 7 3 [])).2.health
      = (Wizard.mk "Enemy" 100 7 3 []).health ∧
    ((Spell.ManaDrainSpell "Mana Drain" 5 12).cast
        (Wizard.mk "Player" 100 50 0 []) (Wizard.mk "Enemy" 100 7 3 [])).2.shield
      = (Wizard.mk "Enemy" 100 7 3 []).shield ∧
    ((Spell.ManaDrainSpell "Mana Drain" 5 12).cast
        (Wizard.mk "Player" 100 50 0 []) (Wizard.mk "Enemy" 100 7 3 [])).2
      = { (Wizard.mk "Enemy" 100 7 3 []) with
          mana_ := (Wizard.mk "Enemy" 100 7 3 []).mana
            - min 12 (Wizard.mk "Enemy" 100 7 3 []).mana }) :=
  ⟨by decide, by decide, by decide, by decide,
   manaDrain_target "Mana Drain" 5 12 (Wizard.mk "Player" 100 50 0 [])
     (Wizard.mk "Enemy" 100 7 3 []) (by decide) (by decide) (by decide) (by decide)⟩

/-- Counterexample to C5 as stated: the default Mana Drain (cost 5, drain 12)
cast by a caster with 20 mana on a target with 20 mana.  Then
`actualDrain = 12`; the claim asks for `min(50, 20 + 12/2) = 26`, and the code
leaves the caster at `(20 - 5) + 6 = 21`, because the cost is paid before half
of the drain is restored. -/
theorem manaDrain_caster_counterexample :
    (5 : Int) ≤ (Wizard.mk "Player" 100 20 0 []).mana ∧
    (Wizard.mk "Player" 100 20 0 []).mana ≤ 50 ∧
    0 ≤ (Wizard.mk "Enemy" 100 20 0 []).mana ∧ (Wizard.mk "Enemy" 100 20 0 []).mana ≤ 50 ∧
    ((Spell.ManaDrainSpell "Mana Drain" Config.MANA_DRAIN_COST Config.MANA_DRAIN_AMOUNT).cast
      (Wizard.mk "Player" 100 20 0 []) (Wizard.mk "Enemy" 100 20 0 [])).1.mana = 21 ∧
    min 50 ((Wizard.mk "Player" 100 20 0 []).mana
      + (min 12 (Wizard.mk "Enemy" 100 20 0 []).mana) / 2) = 26 := by
  decide

/-- C5 (amended). On a successful cast of the default Mana Drain spell (cost 5,
drain 12) by a caster with `5 ≤ mana ≤ 50` against a distinct target with
`0 ≤ mana ≤ 50`, the caster's mana after the cast is
`min(50, (caster.mana_before - 5) + actualDrain/2)`, where
`actualDrain = min(12, target.mana_before)` and `/` is integer floor division:
the cost is subtracted before half of the drain is added. -/
theorem manaDrain_caster (caster target : Wizard)
    (hc0 : 5 ≤ caster.mana) (hc1 : caster.mana ≤ 50)
    (ht0 : 0 ≤ target.mana) (_ht1 : target.mana ≤ 50) :
    ((Spell.ManaDrainSpell "Mana Drain" Config.MANA_DRAIN_COST Config.MANA_DRAIN_AMOUNT).cast
      caster target).1.mana
      = min 50 ((caster.mana - 5) + (min 12 target.mana) / 2) := by
  have hm : caster.hasEnoughMana Config.MANA_DRAIN_COST = true := by
    simp only [Wizard.hasEnoughMana, Config.MANA_DRAIN_COST]; simpa using hc0
  rw [cast_manaDrain_of_enough _ _ _ caster target hm]
  obtain ⟨cn, ch, cm, cs, cb⟩ := caster
  simp only [Wizard.mana, Config.MANA_DRAIN_AMOUNT, Config.MANA_DRAIN_COST] at *
  have hmin0 : 0 ≤ min 12 target.mana_ := le_min (by decide) ht0
  rw [Int.tdiv_eq_ediv hmin0 (by decide)]
  have hmin1 : min 12 target.mana_ ≤ 12 := min_le_left _ _
  have hw1 : wrapInt (cm - 5) = cm - 5 :=
    wrapInt_of_inRange _ (by simp only [INT_MIN]; omega) (by simp only [INT_MAX]; omega)
  have hw2 : wrapInt (cm - 5 + min 12 target.mana_ / 2) = cm - 5 + min 12 target.mana_ / 2 :=
    wrapInt_of_inRange _ (by simp only [INT_MIN]; omega) (by simp only [INT_MAX]; omega)
  have hpos : ¬ (cm - 5 < 0) := by omega
  simp only [Wizard.changeMana, Wizard.spendMana, Config.INITIAL_MANA, hw1, if_neg hpos, hw2]
  rcases le_total (cm - 5 + min 12 target.mana_ / 2) 50 with h | h
  · rw [min_eq_right h]; split_ifs <;> omega
  · rw [min_eq_left h]; split_ifs <;> omega

theorem manaDrain_caster_witness :
    (5 : Int) ≤ (Wizard.mk "Player" 100 20 0 []).mana ∧
    (Wizard.mk "Player" 100 20 0 []).mana ≤ 50 ∧
    0 ≤ (Wizard.mk "Enemy" 100 20 0 []).mana ∧ (Wizard.mk "Enemy" 100 20 0 []).mana ≤ 50 ∧
    ((Spell.ManaDrainSpell "Mana Drain" Config.MANA_DRAIN_COST Config.MANA_DRAIN_AMOUNT).cast
      (Wizard.mk "Player" 100 20 0 []) (Wizard.mk "Enemy" 100 20 0 [])).1.mana
      = min 50 (((Wizard.mk "Player" 100 20 0 []).mana - 5)
          + (min 12 (Wizard.mk "Enemy" 100 20 0 []).mana) / 2) :=
  ⟨by decide, by decide, by decide, by decide,
   manaDrain_caster (Wizard.mk "Player" 100 20 0 []) (Wizard.mk "Enemy" 100 20 0 [])
     (by decide) (by decide) (by decide) (by decide)⟩

/-! ## Rule-based strategy on the default spellbook -/

theorem findByName_default_heal :
    AiTurnStrategy.findByName SpellFactory.createDefaultSpellBook "Healing Light" = 2 := by
  decide

theorem findByName_default_shield :
    AiTurnStrategy.findByName SpellFactory.createDefaultSpellBook "Magic Shield" = 3 := by
  decide

theorem findByName_default_drain :
    AiTurnStrategy.findByName SpellFactory.createDefaultSpellBook "Mana Drain" = 4 := by
  decide

/-- On the default spellbook the heal rule reads the cost 8 at index 2. -/
theorem ruleFires_default_heal (cond : Bool) (self : Wizard) :
    AiTurnStrategy.ruleFires cond 2 self SpellFactory.createDefaultSpellBook
      = some (cond && decide (self.mana_ ≥ 8)) := by
  cases cond <;>
    simp [AiTurnStrategy.ruleFires, SpellFactory.createDefaultSpellBook, Spell.manaCost,
      Wizard.hasEnoughMana, Config.HEAL_COST]

/-- On the default spellbook the shield rule reads the cost 7 at index 3. -/
theorem ruleFires_default_shield (cond : Bool) (self : Wizard) :
    AiTurnStrategy.ruleFires cond 3 self SpellFactory.createDefaultSpellBook
      = some (cond && decide (self.mana_ ≥ 7)) := by
  cases cond <;>
    simp [AiTurnStrategy.ruleFires, SpellFactory.createDefaultSpellBook, Spell.manaCost,
      Wizard.hasEnoughMana, Config.SHIELD_COST]

/-- On the default spellbook the drain rule reads the cost 5 at index 4. -/
theorem ruleFires_default_drain (cond : Bool) (self : Wizard) :
    AiTurnStrategy.ruleFires cond 4 self SpellFactory.createDefaultSpellBook
      = some (cond && decide (self.mana_ ≥ 5)) := by
  cases cond <;>
    simp [AiTurnStrategy.ruleFires, SpellFactory.createDefaultSpellBook, Spell.manaCost,
      Wizard.hasEnoughMana, Config.MANA_DRAIN_COST]

/-- C8. AI rule 1 has top priority: with the default spellbook, for every self
with `health ≤ 40` and `mana ≥ 8` (any shield) and every opponent,
`chooseSpellIndex` returns index 2, and the spell at index 2 is
"Healing Light". -/
theorem ai_rule1_heal (self opponent : Wizard)
    (hh : self.health ≤ 40) (hm : self.mana ≥ 8) :
    AiTurnStrategy.chooseSpellIndex self opponent SpellFactory.createDefaultSpellBook
      = some 2 ∧
    (SpellFactory.createDefaultSpellBook.get? 2).map Spell.name = some "Healing Light" := by
  refine ⟨?_, by decide⟩
  simp only [Wizard.health, Wizard.mana] at hh hm
  simp [AiTurnStrategy.chooseSpellIndex, findByName_default_heal, ruleFires_default_heal,
    Wizard.health, hh, hm]

theorem ai_rule1_heal_witness :
    (Wizard.mk "Enemy" 35 50 0 []).health ≤ 40 ∧ (Wizard.mk "Enemy" 35 50 0 []).mana ≥ 8 ∧
    (AiTurnStrategy.chooseSpellIndex (Wizard.mk "Enemy" 35 50 0 [])
        (Wizard.mk "Player" 100 20 0 []) SpellFactory.createDefaultSpellBook = some 2 ∧
      (SpellFactory.createDefaultSpellBook.get? 2).map Spell.name = some "Healing Light") :=
  ⟨by decide, by decide,
   ai_rule1_heal (Wizard.mk "Enemy" 35 50 0 []) (Wizard.mk "Player" 100 20 0 [])
     (by decide) (by decide)⟩

/-- C9. AI rule 2: with the default spellbook, for every self with
`shield = 0` and `mana ≥ 7` for which rule 1 does not fire (`health > 40` or
`mana < 8`) and every opponent, `chooseSpellIndex` returns index 3, and the
spell at index 3 is "Magic Shield". -/
theorem ai_rule2_shield (self opponent : Wizard)
    (hs : self.shield = 0) (hm : self.mana ≥ 7)
    (h1 : self.health > 40 ∨ self.mana < 8) :
    AiTurnStrategy.chooseSpellIndex self opponent SpellFactory.createDefaultSpellBook
      = some 3 ∧
    (SpellFactory.createDefaultSpellBook.get? 3).map Spell.name = some "Magic Shield" := by
  refine ⟨?_, by decide⟩
  simp only [Wizard.health, Wizard.mana, Wizard.shield] at hs hm h1
  have r1 : (decide (self.health_ ≤ 40) && decide (self.mana_ ≥ 8)) = false := by
    rcases h1 with h | h
    · have : ¬ self.health_ ≤ 40 := by omega
      simp [this]
    · have : ¬ self.mana_ ≥ 8 := by omega
      simp [this]
  simp [AiTurnStrategy.chooseSpellIndex, findByName_default_heal, ruleFires_default_heal,
    findByName_default_shield, ruleFires_default_shield,
    Wizard.health, Wizard.shield, r1, hs, hm]

theorem ai_rule2_shield_witness :
    (Wizard.mk "Enemy" 80 50 0 []).shield = 0 ∧ (Wizard.mk "Enemy" 80 50 0 []).mana ≥ 7 ∧
    ((Wizard.mk "Enemy" 80 50 0 []).health > 40 ∨ (Wizard.mk "Enemy" 80 50 0 []).mana < 8) ∧
    (AiTurnStrategy.chooseSpellIndex (Wizard.mk "Enemy" 80 50 0 [])
        (Wizard.mk "Player" 100 20 0 []) SpellFactory.createDefaultSpellBook = some 3 ∧
      (SpellFactory.createDefaultSpellBook.get? 3).map Spell.name = some "Magic Shield") :=
  ⟨by decide, by decide, by decide,
   ai_rule2_shield (Wizard.mk "Enemy" 80 50 0 []) (Wizard.mk "Player" 100 20 0 [])
     (by decide) (by decide) (by decide)⟩

/-- C10. AI rule 3: with the default spellbook, whenever rules 1 and 2 do not
fire (`health > 40` or `mana < 8`; and `shield ≠ 0` or `mana < 7`),
`opponent.mana ≥ 15` and `self.mana ≥ 5`, `chooseSpellIndex` returns index 4,
and the spell at index 4 is "Mana Drain". -/
theorem ai_rule3_drain (self opponent : Wizard)
    (h1 : self.health > 40 ∨ self.mana < 8)
    (h2 : self.shield ≠ 0 ∨ self.mana < 7)
    (ho : opponent.mana ≥ 15) (hm : self.mana ≥ 5) :
    AiTurnStrategy.chooseSpellIndex self opponent SpellFactory.createDefaultSpellBook
      = some 4 ∧
    (SpellFactory.createDefaultSpellBook.get? 4).map Spell.name = some "Mana Drain" := by
  refine ⟨?_, by decide⟩
  simp only [Wizard.health, Wizard.mana, Wizard.shield] at h1 h2 ho hm
  have r1 : (decide (self.health_ ≤ 40) && decide (self.mana_ ≥ 8)) = false := by
    rcases h1 with h | h
    · have : ¬ self.health_ ≤ 40 := by omega
      simp [this]
    · have : ¬ self.mana_ ≥ 8 := by omega
      simp [this]
  have r2 : (decide (self.shield_ = 0) && decide (self.mana_ ≥ 7)) = false := by
    rcases h2 with h | h
    · simp [h]
    · have : ¬ self.mana_ ≥ 7 := by omega
      simp [this]
  simp [AiTurnStrategy.chooseSpellIndex, findByName_default_heal, ruleFires_default_heal,
    findByName_default_shield, ruleFires_default_shield,
    findByName_default_drain, ruleFires_default_drain,
    Wizard.health, Wizard.shield, Wizard.mana, r1, r2, ho, hm]

theorem ai_rule3_drain_witness :
    ((Wizard.mk "Enemy" 80 50 5 []).health > 40 ∨ (Wizard.mk "Enemy" 80 50 5 []).mana < 8) ∧
    ((Wizard.mk "Enemy" 80 50 5 []).shield ≠ 0 ∨ (Wizard.mk "Enemy" 80 50 5 []).mana < 7) ∧
    (Wizard.mk "Player" 100 20 0 []).mana ≥ 15 ∧ (Wizard.mk "Enemy" 80 50 5 []).mana ≥ 5 ∧
    (AiTurnStrategy.chooseSpellIndex (Wizard.mk "Enemy" 80 50 5 [])
        (Wizard.mk "Player" 100 20 0 []) SpellFactory.createDefaultSpellBook = some 4 ∧
      (SpellFactory.createDefaultSpellBook.get? 4).map Spell.name = some "Mana Drain") :=
  ⟨by decide, by decide, by decide, by decide,
   ai_rule3_drain (Wizard.mk "Enemy" 80 50 5 []) (Wizard.mk "Player" 100 20 0 [])
     (by decide) (by decide) (by decide) (by decide)⟩

/-! ## The duel -/

theorem Wizard.Ok.mono {w : Wizard} {B C : Int} (h : w.Ok B) (hBC : B ≤ C) : w.Ok C :=
  ⟨h.1, h.2.1, fun hC => ⟨(h.2.2 (le_trans hBC hC)).1, le_trans (h.2.2 (le_trans hBC hC)).2 hBC⟩⟩

theorem Wizard.Ok.spendMana {w : Wizard} {B : Int} (h : w.Ok B) (cost : Int)
    (h0 : 0 ≤ cost) (h1 : cost ≤ INT_MAX) : (w.spendMana cost).Ok B := by
  obtain ⟨n, hp, m, sh, bk⟩ := w
  simp only [Wizard.Ok, Wizard.Sound, Wizard.health, Wizard.mana] at h
  obtain ⟨⟨a1, a2, a3, a4⟩, a6, a7⟩ := h
  have hw := wrapInt_of_inRange (m - cost)
    (by simp only [INT_MIN, INT_MAX] at *; omega) (by simp only [INT_MAX] at *; omega)
  simp only [Wizard.Ok, Wizard.Sound, Wizard.spendMana, Wizard.health, Wizard.mana, hw]
  refine ⟨⟨a1, a2, ?_, ?_⟩, a6, a7⟩ <;> split_ifs <;> omega

theorem Wizard.Ok.regenerateMana {w : Wizard} {B : Int} (h : w.Ok B) (amount : Int)
    (h0 : 0 ≤ amount) (h1 : amount + 50 ≤ INT_MAX) : (w.regenerateMana amount).Ok B := by
  obtain ⟨n, hp, m, sh, bk⟩ := w
  simp only [Wizard.Ok, Wizard.Sound, Wizard.health, Wizard.mana] at h
  obtain ⟨⟨a1, a2, a3, a4⟩, a6, a7⟩ := h
  have hw := wrapInt_of_inRange (m + amount)
    (by simp only [INT_MIN, INT_MAX] at *; omega) (by simp only [INT_MAX] at *; omega)
  simp only [Wizard.Ok, Wizard.Sound, Wizard.regenerateMana, Wizard.health, Wizard.mana,
    Config.INITIAL_MANA, hw]
  refine ⟨⟨a1, a2, ?_, ?_⟩, a6, a7⟩ <;> split_ifs <;> omega

theorem Wizard.Ok.changeMana {w : Wizard} {B : Int} (h : w.Ok B) (delta : Int) :
    (w.changeMana delta).Ok B := by
  obtain ⟨n, hp, m, sh, bk⟩ := w
  simp only [Wizard.Ok, Wizard.Sound, Wizard.health, Wizard.mana] at h
  obtain ⟨⟨a1, a2, a3, a4⟩, a6, a7⟩ := h
  simp only [Wizard.Ok, Wizard.Sound, Wizard.changeMana, Wizard.health, Wizard.mana,
    Config.INITIAL_MANA]
  refine ⟨⟨a1, a2, ?_, ?_⟩, a6, a7⟩ <;> split_ifs <;> omega

theorem Wizard.Ok.receiveDamage {w : Wizard} {B : Int} (h : w.Ok B) (amount : Int) :
    (w.receiveDamage amount).Ok B := by
  obtain ⟨n, hp, m, sh, bk⟩ := w
  simp only [Wizard.Ok, Wizard.Sound, Wizard.health, Wizard.mana] at h
  obtain ⟨⟨a1, a2, a3, a4⟩, a6, a7⟩ := h
  simp only [Wizard.Ok, Wizard.Sound, Wizard.receiveDamage, Wizard.isAlive, Wizard.health,
    Wizard.mana]
  split_ifs with c1 c2 c3 c4 c5 c6
  all_goals
    refine ⟨⟨?_, ?_, ?_, ?_⟩, a6, fun hB => ?_⟩
    all_goals
      first
        | assumption
        | exact a7 hB
        | (simp only [] at *; omega)

theorem Wizard.Ok.heal {w : Wizard} {B : Int} (h : w.Ok B) (amount : Int)
    (h0 : 0 ≤ amount) (h1 : amount + 100 ≤ INT_MAX) : (w.heal amount).Ok B := by
  obtain ⟨n, hp, m, sh, bk⟩ := w
  simp only [Wizard.Ok, Wizard.Sound, Wizard.health, Wizard.mana] at h
  obtain ⟨⟨a1, a2, a3, a4⟩, a6, a7⟩ := h
  have hw := wrapInt_of_inRange (hp + amount)
    (by simp only [INT_MIN, INT_MAX] at *; omega) (by simp only [INT_MAX] at *; omega)
  simp only [Wizard.Ok, Wizard.Sound, Wizard.heal, Wizard.isAlive, Wizard.health,
    Wizard.mana, Config.INITIAL_HEALTH, hw]
  split_ifs
  all_goals
    refine ⟨⟨?_, ?_, ?_, ?_⟩, a6, a7⟩
    all_goals first | assumption | (simp only [] at *; omega)

theorem Wizard.Ok.addShield {w : Wizard} {B : Int} (h : w.Ok B) (amount : Int)
    (h0 : 0 ≤ amount) : (w.addShield amount).Ok (B + amount) := by
  obtain ⟨n, hp, m, sh, bk⟩ := w
  simp only [Wizard.Ok, Wizard.Sound, Wizard.health, Wizard.mana] at h
  obtain ⟨⟨a1, a2, a3, a4⟩, a6, a7⟩ := h
  simp only [Wizard.Ok, Wizard.Sound, Wizard.addShield, Wizard.isAlive, Wizard.health,
    Wizard.mana]
  split_ifs
  · refine ⟨⟨a1, a2, a3, a4⟩, a6, fun hB => ?_⟩
    have := a7 (by omega)
    simp only [] at *
    omega
  · refine ⟨⟨a1, a2, a3, a4⟩, a6, fun hB => ?_⟩
    have hs := a7 (by omega)
    have hw := wrapInt_of_inRange (sh + amount)
      (by simp only [INT_MIN] at *; omega) (by omega)
    simp only [hw]
    omega

/-- One cast of a spell of the default spellbook keeps both duellists in their
invariant; the caster's shield grows by at most 18, the target's not at all. -/
theorem cast_default_ok (s : Spell) (hs : s ∈ SpellFactory.createDefaultSpellBook)
    (caster target : Wizard) (B C : Int) (hc : caster.Ok B) (ht : target.Ok C) :
    (s.cast caster target).1.Ok (B + 18) ∧ (s.cast caster target).2.Ok C := by
  have hc18 : caster.Ok (B + 18) := hc.mono (by omega)
  simp only [SpellFactory.createDefaultSpellBook, List.mem_cons, List.mem_singleton,
    List.not_mem_nil, or_false] at hs
  rcases hs with rfl | rfl | rfl | rfl | rfl | rfl
  all_goals
    simp only [Spell.cast, Spell.payMana, Spell.manaCost]
    split_ifs
    · exact ⟨hc18, ht⟩
  · exact ⟨(hc.spendMana _ (by decide) (by decide)).mono (by omega), ht.receiveDamage _⟩
  · exact ⟨(hc.spendMana _ (by decide) (by decide)).mono (by omega), ht.receiveDamage _⟩
  · exact ⟨((hc.spendMana _ (by decide) (by decide)).heal _ (by decide) (by decide)).mono
      (by omega), ht⟩
  · exact ⟨(hc.spendMana _ (by decide) (by decide)).addShield _ (by decide), ht⟩
  · exact ⟨((hc.spendMana _ (by decide) (by decide)).changeMana _).mono (by omega),
      ht.changeMana _⟩
  · exact ⟨((hc.spendMana _ (by decide) (by decide)).changeMana _).mono (by omega), ht⟩

/-- A turn played in a default duel, whatever integer the strategy answers,
returns a state and keeps both duellists in their invariant. -/
theorem playTurn_default_ok (f : Wizard → Wizard → List Spell → Int)
    (current opponent : Wizard) (B C : Int) (hc : current.Ok B) (ho : opponent.Ok C) :
    ∃ r, Game.playTurn current opponent (TurnStrategy.answering f) = some r ∧
      r.1.Ok (B + 18) ∧ r.2.Ok C := by
  have hc18 : current.Ok (B + 18) := hc.mono (by omega)
  simp only [Game.playTurn, TurnStrategy.answering]
  split_ifs with hempty hrange
  · exact ⟨_, rfl, hc18, ho⟩
  · exact ⟨_, rfl, hc18, ho⟩
  · have hlt : (f current opponent current.spellBook).toNat < current.spellBook.length := by
      omega
    cases hget : current.spellBook.get? (f current opponent current.spellBook).toNat with
    | none =>
      rw [List.get?_eq_none] at hget
      omega
    | some spell =>
      have hmem : spell ∈ SpellFactory.createDefaultSpellBook := by
        have := List.get?_mem hget
        rw [Wizard.spellBook, hc.2.1] at this
        exact this
      have hcast := cast_default_ok spell hmem current opponent B C hc ho
      exact ⟨_, rfl, hcast.1.regenerateMana _ (by decide) (by decide), hcast.2⟩

/-- Both fresh wizards of `Game()` are in the duel invariant with shield
bound 0. -/
theorem Game.new_ok : Game.new.player_.Ok 0 ∧ Game.new.enemy_.Ok 0 := by
  refine ⟨⟨by decide, by decide, fun _ => by decide⟩,
    ⟨by decide, by decide, fun _ => by decide⟩⟩

/-- The loop of `Game::run` keeps both duellists in the invariant from any
state in which they are, at either program point, for any answers of the
strategies. -/
theorem runTurns_ok (turns : List (Wizard → Wizard → List Spell → Int)) :
    ∀ (atLoopHead : Bool) (g : Game) (B : Int), g.player_.Ok B → g.enemy_.Ok B →
      ∃ g1, Game.runTurns (turns.map TurnStrategy.answering) atLoopHead g = some g1 ∧
        g1.player_.Ok (B + 18 * turns.length) ∧ g1.enemy_.Ok (B + 18 * turns.length) := by
  induction turns with
  | nil =>
    intro b g B hp he
    exact ⟨g, by simp [Game.runTurns], hp.mono (by simp), he.mono (by simp)⟩
  | cons f rest ih =>
    intro b g B hp he
    have hlen : B + 18 + 18 * (rest.length : Int) = B + 18 * ((f :: rest).length : Int) := by
      simp only [List.length_cons]; push_cast; ring
    have hle : B ≤ B + 18 * ((f :: rest).length : Int) := by
      have : (0 : Int) ≤ ((f :: rest).length : Int) := Int.ofNat_nonneg _
      omega
    cases b with
    | true =>
      simp only [List.map_cons, Game.runTurns]
      split_ifs with halive
      · obtain ⟨r, hr, hr1, hr2⟩ := playTurn_default_ok f g.player_ g.enemy_ B B hp he
        rw [hr]
        simp only []
        split_ifs with hdead
        · exact ⟨_, rfl, hr1.mono (by omega), hr2.mono hle⟩
        · obtain ⟨g1, hg1, h1, h2⟩ := ih false ⟨r.1, r.2⟩ (B + 18) hr1 (hr2.mono (by omega))
          exact ⟨g1, hg1, hlen ▸ h1, hlen ▸ h2⟩
      · exact ⟨g, rfl, hp.mono hle, he.mono hle⟩
    | false =>
      simp only [List.map_cons, Game.runTurns]
      obtain ⟨r, hr, hr1, hr2⟩ := playTurn_default_ok f g.enemy_ g.player_ B B he hp
      rw [hr]
      simp only []
      obtain ⟨g1, hg1, h1, h2⟩ := ih true ⟨r.2, r.1⟩ (B + 18) (hr2.mono (by omega)) hr1
      exact ⟨g1, hg1, hlen ▸ h1, hlen ▸ h2⟩

/-- The player, at full mana, casts "Magic Shield": 7 mana are paid, the
shield field receives `shield_ + 18`, and 4 mana are regenerated. -/
theorem playTurn_player_shield (s : Int) :
    Game.playTurn ⟨"Player", 100, 50, s, SpellFactory.createDefaultSpellBook⟩
      ⟨"Enemy", 100, 50, 0, SpellFactory.createDefaultSpellBook⟩
      (TurnStrategy.answering (fun _ _ _ => 3))
    = some (⟨"Player", 100, 47, wrapInt (s + 18), SpellFactory.createDefaultSpellBook⟩,
        ⟨"Enemy", 100, 50, 0, SpellFactory.createDefaultSpellBook⟩) := by
  have h1 : wrapInt 43 = 43 := by decide
  have h2 : wrapInt 47 = 47 := by decide
  simp [Game.playTurn, TurnStrategy.answering, Wizard.spellBook,
    SpellFactory.createDefaultSpellBook, Spell.cast, Spell.payMana, Spell.manaCost,
    Wizard.hasEnoughMana, Wizard.spendMana, Wizard.addShield, Wizard.isAlive,
    Wizard.regenerateMana, Config.SHIELD_COST, Config.SHIELD_AMOUNT, Config.INITIAL_MANA,
    Config.MANA_REGEN_PER_TURN, h1, h2]

/-- The enemy, at full mana, casts "Mana Surge" and is at full mana again;
nothing else changes. -/
theorem playTurn_enemy_surge (w : Wizard) :
    Game.playTurn ⟨"Enemy", 100, 50, 0, SpellFactory.createDefaultSpellBook⟩ w
      (TurnStrategy.answering (fun _ _ _ => 5))
    = some (⟨"Enemy", 100, 50, 0, SpellFactory.createDefaultSpellBook⟩, w) := by
  have h1 : wrapInt 49 = 49 := by decide
  have h2 : wrapInt 64 = 64 := by decide
  have h3 : wrapInt 54 = 54 := by decide
  simp [Game.playTurn, TurnStrategy.answering, Wizard.spellBook,
    SpellFactory.createDefaultSpellBook, Spell.cast, Spell.payMana, Spell.manaCost,
    Wizard.hasEnoughMana, Wizard.spendMana, Wizard.changeMana,
    Wizard.regenerateMana, Config.MANA_REGEN_SPELL_COST, Config.MANA_REGEN_SPELL_AMOUNT,
    Config.INITIAL_MANA, Config.MANA_REGEN_PER_TURN, h1, h2, h3]

/-- The player, at 47 mana, casts "Mana Surge" and is at full mana again. -/
theorem playTurn_player_surge (s : Int) :
    Game.playTurn ⟨"Player", 100, 47, s, SpellFactory.createDefaultSpellBook⟩
      ⟨"Enemy", 100, 50, 0, SpellFactory.createDefaultSpellBook⟩
      (TurnStrategy.answering (fun _ _ _ => 5))
    = some (⟨"Player", 100, 50, s, SpellFactory.createDefaultSpellBook⟩,
        ⟨"Enemy", 100, 50, 0, SpellFactory.createDefaultSpellBook⟩) := by
  have h1 : wrapInt 46 = 46 := by decide
  have h2 : wrapInt 61 = 61 := by decide
  have h3 : wrapInt 54 = 54 := by decide
  simp [Game.playTurn, TurnStrategy.answering, Wizard.spellBook,
    SpellFactory.createDefaultSpellBook, Spell.cast, Spell.payMana, Spell.manaCost,
    Wizard.hasEnoughMana, Wizard.spendMana, Wizard.changeMana,
    Wizard.regenerateMana, Config.MANA_REGEN_SPELL_COST, Config.MANA_REGEN_SPELL_AMOUNT,
    Config.INITIAL_MANA, Config.MANA_REGEN_PER_TURN, h1, h2, h3]

/-- One block of the schedule leads from `shieldState s` back to the loop
head in `shieldState (wrapInt (s + 18))`. -/
theorem runTurns_shield_block (s : Int) (rest : List TurnStrategy) :
    Game.runTurns (TurnStrategy.answering (fun _ _ _ => 3) ::
        TurnStrategy.answering (fun _ _ _ => 5) :: TurnStrategy.answering (fun _ _ _ => 5) ::
        TurnStrategy.answering (fun _ _ _ => 5) :: rest) true (shieldState s)
      = Game.runTurns rest true (shieldState (wrapInt (s + 18))) := by
  simp only [Game.runTurns, shieldState, Wizard.isAlive, playTurn_player_shield,
    playTurn_enemy_surge, playTurn_player_surge]
  simp

/-- The loop played along `shieldSchedule k` ends in the state whose shield is
`shieldAfter k s`. -/
theorem runTurns_shieldSchedule (k : Nat) :
    ∀ s : Int, Game.runTurns ((shieldSchedule k).map TurnStrategy.answering) true
      (shieldState s) = some (shieldState (shieldAfter k s)) := by
  induction k with
  | zero => intro s; rfl
  | succ k ih =>
    intro s
    simp only [shieldSchedule, List.map_cons, shieldAfter]
    rw [runTurns_shield_block]
    exact ih (wrapInt (s + 18))

/-- As long as the exact shield `s + 18 * k` is an `int`, it is the shield
after `k` blocks. -/
theorem shieldAfter_exact (k : Nat) :
    ∀ s : Int, 0 ≤ s → s + 18 * (k : Int) ≤ INT_MAX → shieldAfter k s = s + 18 * (k : Int) := by
  induction k with
  | zero => intro s _ _; simp [shieldAfter]
  | succ k ih =>
    intro s h0 h1
    have hk : (0 : Int) ≤ (k : Int) := Int.ofNat_nonneg k
    push_cast at h1
    have hw : wrapInt (s + 18) = s + 18 :=
      wrapInt_of_inRange _ (by simp only [INT_MIN]; omega) (by omega)
    simp only [shieldAfter, hw]
    rw [ih (s + 18) (by omega) (by omega)]
    push_cast
    ring

/-- One more block stores the previous shield plus 18. -/
theorem shieldAfter_succ (k : Nat) :
    ∀ s : Int, shieldAfter (k + 1) s = wrapInt (shieldAfter k s + 18) := by
  induction k with
  | zero => intro s; rfl
  | succ k ih =>
    intro s
    have h : shieldAfter (k + 1 + 1) s = shieldAfter (k + 1) (wrapInt (s + 18)) := rfl
    rw [h, ih (wrapInt (s + 18))]
    rfl

/-- After 119304648 blocks from shield 0 the 32-bit shield is negative. -/
theorem shieldAfter_overflow : shieldAfter (119304647 + 1) 0 = -2147483632 := by
  rw [shieldAfter_succ, shieldAfter_exact 119304647 0 (le_refl 0) (by decide)]
  decide

/-- Counterexample to C1 as stated: the schedule of 477218592 in-range answers
in which the player alternates "Magic Shield" and "Mana Surge" and the enemy
always casts "Mana Surge".  Nobody is ever hit, every block of four turns
adds 18 to the player's shield, and in block 119304648 the sum 2147483664
is not representable in `int`: the loop ends in a state in which the
player's 32-bit shield is -2147483632, so `shield ≥ 0` fails. -/
theorem shield_overflow_counterexample :
    Game.runTurns ((shieldSchedule (119304647 + 1)).map TurnStrategy.answering) true Game.new
      = some (shieldState (-2147483632)) ∧
    (shieldState (-2147483632)).player_.shield = -2147483632 ∧
    ¬ (shieldState (-2147483632)).player_.Inv ∧
    18 * (119304647 : Int) ≤ INT_MAX ∧ ¬ (18 * ((119304647 : Int) + 1) ≤ INT_MAX) := by
  refine ⟨?_, by decide, by decide, by decide, by decide⟩
  have hnew : Game.new = shieldState 0 := by decide
  rw [hnew, runTurns_shieldSchedule, shieldAfter_overflow]

/-- C1 (amended). Reachable-state invariant of the duel: starting from the two
fresh wizards of `Game()` (health 100, mana 50, shield 0, default spellbook),
after any finite sequence of turns played by the loop of `Game::run` (player
first, sides alternating, the loop stopping as in the source), with any
integer answered by the strategy at each turn, in range or not, the loop
returns a state in which both wizards satisfy `0 ≤ health ≤ 100` and
`0 ≤ mana ≤ 50`.  After any sequence of at most 119304647 turns
(`18 * turns ≤ 2147483647`, so that no 32-bit shield can have overflowed)
both also satisfy `0 ≤ shield ≤ 18 * turns`. -/
theorem duel_invariant (turns : List (Wizard → Wizard → List Spell → Int)) :
    ∃ g, Game.runTurns (turns.map TurnStrategy.answering) true Game.new = some g ∧
      (0 ≤ g.player_.health ∧ g.player_.health ≤ 100 ∧
        0 ≤ g.player_.mana ∧ g.player_.mana ≤ 50) ∧
      (0 ≤ g.enemy_.health ∧ g.enemy_.health ≤ 100 ∧
        0 ≤ g.enemy_.mana ∧ g.enemy_.mana ≤ 50) ∧
      (18 * (turns.length : Int) ≤ INT_MAX →
        g.player_.Inv ∧ g.enemy_.Inv ∧
        g.player_.shield ≤ 18 * turns.length ∧ g.enemy_.shield ≤ 18 * turns.length) := by
  obtain ⟨g, hg, hp, he⟩ := runTurns_ok turns true Game.new 0 Game.new_ok.1 Game.new_ok.2
  refine ⟨g, hg, hp.1, he.1, fun hlen => ?_⟩
  have hps := hp.2.2 (by omega)
  have hes := he.2.2 (by omega)
  have hp1 := hp.1
  have he1 := he.1
  simp only [Wizard.Sound] at hp1 he1
  simp only [Wizard.Inv, Wizard.shield]
  omega

theorem duel_invariant_witness :
    18 * (([fun _ _ _ => (3 : Int), fun _ _ _ => (0 : Int), fun _ _ _ => (99 : Int)] :
      List (Wizard → Wizard → List Spell → Int)).length : Int) ≤ INT_MAX ∧
    ∃ g, Game.runTurns
        (([fun _ _ _ => (3 : Int), fun _ _ _ => (0 : Int), fun _ _ _ => (99 : Int)] :
          List (Wizard → Wizard → List Spell → Int)).map TurnStrategy.answering)
        true Game.new = some g ∧
      (0 ≤ g.player_.health ∧ g.player_.health ≤ 100 ∧
        0 ≤ g.player_.mana ∧ g.player_.mana ≤ 50) ∧
      (0 ≤ g.enemy_.health ∧ g.enemy_.health ≤ 100 ∧
        0 ≤ g.enemy_.mana ∧ g.enemy_.mana ≤ 50) ∧
      (18 * (([fun _ _ _ => (3 : Int), fun _ _ _ => (0 : Int), fun _ _ _ => (99 : Int)] :
          List (Wizard → Wizard → List Spell → Int)).length : Int) ≤ INT_MAX →
        g.player_.Inv ∧ g.enemy_.Inv ∧
        g.player_.shield ≤ 18 * ([fun _ _ _ => (3 : Int), fun _ _ _ => (0 : Int),
          fun _ _ _ => (99 : Int)] : List (Wizard → Wizard → List Spell → Int)).length ∧
        g.enemy_.shield ≤ 18 * ([fun _ _ _ => (3 : Int), fun _ _ _ => (0 : Int),
          fun _ _ _ => (99 : Int)] : List (Wizard → Wizard → List Spell → Int)).length) :=
  ⟨by decide,
   duel_invariant [fun _ _ _ => (3 : Int), fun _ _ _ => (0 : Int), fun _ _ _ => (99 : Int)]⟩

/-! ## The cheapest-spell loops -/

/-- What the scan computes: either nothing in `rest` passes the filter with a
cost below `best.2` and the state is unchanged, or the result is the first
position `k` of `rest` whose spell has the least cost among the filtered
spells, and that cost is below `best.2`. -/
theorem cheapestLoop_spec (p : Spell → Prop) [DecidablePred p] :
    ∀ (rest : List Spell) (i : Nat) (best : Int × Int),
      (cheapestLoop p rest i best = best ∧ ∀ t ∈ rest, p t → best.2 ≤ t.manaCost) ∨
      (∃ k s, rest.get? k = some s ∧ p s ∧
        cheapestLoop p rest i best = (((i + k : Nat) : Int), s.manaCost) ∧
        s.manaCost < best.2 ∧
        ∀ j t, rest.get? j = some t → p t →
          s.manaCost ≤ t.manaCost ∧ (j < k → s.manaCost < t.manaCost)) := by
  intro rest
  induction rest with
  | nil =>
    intro i best
    left
    exact ⟨rfl, by simp⟩
  | cons a rest ih =>
    intro i best
    by_cases ha : p a ∧ a.manaCost < best.2
    · have hstep : cheapestLoop p (a :: rest) i best
          = cheapestLoop p rest (i + 1) ((i : Int), a.manaCost) := by
        simp only [cheapestLoop, if_pos ha]
      rw [hstep]
      rcases ih (i + 1) ((i : Int), a.manaCost) with ⟨heq, hall⟩ | ⟨k, s, hk, hps, heq, hlt, hmin⟩
      · right
        refine ⟨0, a, rfl, ha.1, ?_, ha.2, ?_⟩
        · rw [heq]; simp
        · intro j t hj hpt
          cases j with
          | zero =>
            simp only [List.get?_cons_zero, Option.some.injEq] at hj
            subst hj
            exact ⟨le_refl _, fun h => absurd h (Nat.lt_irrefl 0)⟩
          | succ j =>
            simp only [List.get?_cons_succ] at hj
            exact ⟨hall t (List.get?_mem hj) hpt, fun h => absurd h (Nat.not_lt_zero _)⟩
      · right
        simp only at hlt
        refine ⟨k + 1, s, by simpa using hk, hps, ?_, lt_trans hlt ha.2, ?_⟩
        · rw [heq]; congr 2; omega
        · intro j t hj hpt
          cases j with
          | zero =>
            simp only [List.get?_cons_zero, Option.some.injEq] at hj
            subst hj
            exact ⟨le_of_lt hlt, fun _ => hlt⟩
          | succ j =>
            simp only [List.get?_cons_succ] at hj
            have := hmin j t hj hpt
            exact ⟨this.1, fun h => this.2 (by omega)⟩
    · have hstep : cheapestLoop p (a :: rest) i best = cheapestLoop p rest (i + 1) best := by
        simp only [cheapestLoop, if_neg ha]
      rw [hstep]
      have ha2 : p a → best.2 ≤ a.manaCost := fun hp => by
        by_contra hlt
        exact ha ⟨hp, not_le.mp hlt⟩
      rcases ih (i + 1) best with ⟨heq, hall⟩ | ⟨k, s, hk, hps, heq, hlt, hmin⟩
      · left
        refine ⟨heq, ?_⟩
        intro t ht hpt
        rcases List.mem_cons.mp ht with rfl | ht
        · exact ha2 hpt
        · exact hall t ht hpt
      · right
        refine ⟨k + 1, s, by simpa using hk, hps, ?_, hlt, ?_⟩
        · rw [heq]; congr 2; omega
        · intro j t hj hpt
          cases j with
          | zero =>
            simp only [List.get?_cons_zero, Option.some.injEq] at hj
            subst hj
            have := ha2 hpt
            exact ⟨by omega, fun _ => by omega⟩
          | succ j =>
            simp only [List.get?_cons_succ] at hj
            have := hmin j t hj hpt
            exact ⟨this.1, fun h => this.2 (by omega)⟩

/-- The loop of `findCheapestSpell` is the scan without a filter. -/
theorem findCheapestSpellLoop_eq :
    ∀ (rest : List Spell) (i : Nat) (best : Int × Int),
      AiTurnStrategy.findCheapestSpellLoop rest i best
        = cheapestLoop (fun _ => True) rest i best := by
  intro rest
  induction rest with
  | nil => intro i best; rfl
  | cons a rest ih =>
    intro i best
    simp only [AiTurnStrategy.findCheapestSpellLoop, cheapestLoop, true_and, ih]

/-- The loop of `findCheapestAffordableDamage` is the scan filtered by
`AffordableDamage self`. -/
theorem findCheapestAffordableDamageLoop_eq (self : Wizard) :
    ∀ (rest : List Spell) (i : Nat) (best : Int × Int),
      AiTurnStrategy.findCheapestAffordableDamageLoop self rest i best
        = cheapestLoop (AffordableDamage self) rest i best := by
  intro rest
  induction rest with
  | nil => intro i best; rfl
  | cons a rest ih =>
    intro i best
    simp only [AiTurnStrategy.findCheapestAffordableDamageLoop, cheapestLoop, ih,
      AffordableDamage, Wizard.hasEnoughMana, Wizard.mana]
    by_cases h1a : a.name = "Fireball" <;> by_cases h1b : a.name = "Ice Spike" <;>
      by_cases h2 : a.manaCost ≤ self.mana_ <;> by_cases h3 : a.manaCost < best.2 <;>
      simp [h1a, h1b, h2, h3]

/-- On the default spellbook the cheapest affordable damage spell is
"Ice Spike" (index 1) as soon as 6 mana are available, and none otherwise. -/
theorem findCheapestAffordableDamage_default (self : Wizard) :
    AiTurnStrategy.findCheapestAffordableDamage SpellFactory.createDefaultSpellBook self
      = if 6 ≤ self.mana_ then 1 else -1 := by
  simp only [AiTurnStrategy.findCheapestAffordableDamage, SpellFactory.createDefaultSpellBook,
    AiTurnStrategy.findCheapestAffordableDamageLoop, Spell.name, Spell.manaCost,
    Wizard.hasEnoughMana, Config.FIREBALL_COST, Config.ICE_SPIKE_COST, Config.HEAL_COST,
    Config.SHIELD_COST, Config.MANA_DRAIN_COST, Config.MANA_REGEN_SPELL_COST, INT_MAX]
  by_cases h10 : (10 : Int) ≤ self.mana_
  · have h6 : (6 : Int) ≤ self.mana_ := by omega
    simp [h10, h6]
  · by_cases h6 : (6 : Int) ≤ self.mana_
    · simp [h10, h6]
    · simp [h10, h6]

/-- On the default spellbook the globally cheapest spell is "Mana Surge"
(index 5, cost 1). -/
theorem findCheapestSpell_default :
    AiTurnStrategy.findCheapestSpell SpellFactory.createDefaultSpellBook = some 5 := by
  decide

/-- The decision table of `chooseSpellIndex` on the default spellbook. -/
theorem chooseSpellIndex_default (self opponent : Wizard) :
    AiTurnStrategy.chooseSpellIndex self opponent SpellFactory.createDefaultSpellBook
      = if self.health_ ≤ 40 ∧ 8 ≤ self.mana_ then some 2
        else if self.shield_ = 0 ∧ 7 ≤ self.mana_ then some 3
        else if 15 ≤ opponent.mana_ ∧ 5 ≤ self.mana_ then some 4
        else if 6 ≤ self.mana_ then some 1
        else some 5 := by
  simp only [AiTurnStrategy.chooseSpellIndex, findByName_default_heal, ruleFires_default_heal,
    findByName_default_shield, ruleFires_default_shield, findByName_default_drain,
    ruleFires_default_drain, findCheapestAffordableDamage_default, findCheapestSpell_default,
    Wizard.health, Wizard.shield, Wizard.mana]
  by_cases c1 : self.health_ ≤ 40 ∧ 8 ≤ self.mana_
  · simp [c1]
  · have r1 : (decide (self.health_ ≤ 40) && decide (self.mana_ ≥ 8)) = false := by
      simpa using c1
    simp only [r1, if_neg c1]
    by_cases c2 : self.shield_ = 0 ∧ 7 ≤ self.mana_
    · simp [c2]
    · have r2 : (decide (self.shield_ = 0) && decide (self.mana_ ≥ 7)) = false := by
        simpa using c2
      simp only [r2, if_neg c2]
      by_cases c3 : 15 ≤ opponent.mana_ ∧ 5 ≤ self.mana_
      · simp [c3]
      · have r3 : (decide (opponent.mana_ ≥ 15) && decide (self.mana_ ≥ 5)) = false := by
          simpa using c3
        simp only [r3, if_neg c3]
        by_cases c4 : (6 : Int) ≤ self.mana_
        · simp [c4]
        · simp [c4]

/-- C11. The code at the failing input: the one-spell book with a "Fireball"
of cost 2147483647 and a self with 2147483647 mana (the state of a fresh
wizard after `spendMana(-2147483597)`).  The spell is an affordable damage
spell, so the cheapest affordable damage spell is at index 0; the code
returns -1, because `bestCost` starts at `numeric_limits<int>::max()` and a
spell is taken over only when its cost is strictly smaller.  The sibling
`findCheapestSpell`, which starts from `spells[0]`, returns 0 on the same
book. -/
theorem findCheapestAffordableDamage_sentinel_miss :
    ((Wizard.mk0 "Enemy").spendMana (-2147483597)).mana = 2147483647 ∧
    AffordableDamage (Wizard.mk "Enemy" 100 2147483647 0 [])
      (Spell.DamageSpell "Fireball" 2147483647 25) ∧
    AiTurnStrategy.findCheapestAffordableDamage [Spell.DamageSpell "Fireball" 2147483647 25]
      (Wizard.mk "Enemy" 100 2147483647 0 []) = -1 ∧
    AiTurnStrategy.findCheapestSpell [Spell.DamageSpell "Fireball" 2147483647 25] = some 0 := by
  decide

/-- Rule 4 away from the initial `bestCost`.  For every spellbook and every
self, `findCheapestAffordableDamage` returns -1 if no spell named "Fireball"
or "Ice Spike" has `manaCost ≤ self.mana`; otherwise, when `self.mana` is
below 2147483647, it returns the smallest index `i` among the affordable
damage spells whose cost is minimal: the spell at `i` is an affordable damage
spell, no affordable damage spell is cheaper, and every such spell at a
smaller index is strictly dearer.  With the default spellbook, whenever rules
1-3 do not fire and `self.mana ≥ 6`, `chooseSpellIndex` returns index 1,
"Ice Spike", also when "Fireball" is affordable. -/
theorem ai_rule4_cheapest_damage :
    (∀ (spells : List Spell) (self : Wizard),
      ((∀ t ∈ spells, ¬ AffordableDamage self t) →
        AiTurnStrategy.findCheapestAffordableDamage spells self = -1) ∧
      ((∃ t ∈ spells, AffordableDamage self t) → self.mana < INT_MAX →
        ∃ (i : Nat) (s : Spell),
          AiTurnStrategy.findCheapestAffordableDamage spells self = (i : Int) ∧
          spells.get? i = some s ∧ AffordableDamage self s ∧
          ∀ j t, spells.get? j = some t → AffordableDamage self t →
            s.manaCost ≤ t.manaCost ∧ (j < i → s.manaCost < t.manaCost))) ∧
    (∀ self opponent : Wizard,
      (self.health > 40 ∨ self.mana < 8) → (self.shield ≠ 0 ∨ self.mana < 7) →
      (opponent.mana < 15 ∨ self.mana < 5) → self.mana ≥ 6 →
      AiTurnStrategy.chooseSpellIndex self opponent SpellFactory.createDefaultSpellBook
        = some 1 ∧
      (SpellFactory.createDefaultSpellBook.get? 1).map Spell.name = some "Ice Spike") := by
  refine ⟨fun spells self => ⟨?_, ?_⟩, ?_⟩
  · intro hnone
    simp only [AiTurnStrategy.findCheapestAffordableDamage,
      findCheapestAffordableDamageLoop_eq]
    rcases cheapestLoop_spec (AffordableDamage self) spells 0 (-1, INT_MAX) with
      ⟨heq, _⟩ | ⟨k, s, hk, hps, _, _, _⟩
    · rw [heq]
    · exact absurd hps (hnone s (List.get?_mem hk))
  · rintro ⟨t, ht, hpt⟩ hmana
    simp only [AiTurnStrategy.findCheapestAffordableDamage,
      findCheapestAffordableDamageLoop_eq]
    rcases cheapestLoop_spec (AffordableDamage self) spells 0 (-1, INT_MAX) with
      ⟨_, hall⟩ | ⟨k, s, hk, hps, heq, _, hmin⟩
    · have h1 := hall t ht hpt
      have h2 := hpt.2
      simp only at h1
      omega
    · refine ⟨k, s, ?_, hk, hps, hmin⟩
      rw [heq]
      simp
  · intro self opponent h1 h2 h3 h4
    refine ⟨?_, by decide⟩
    simp only [Wizard.health, Wizard.mana, Wizard.shield] at h1 h2 h3 h4
    rw [chooseSpellIndex_default]
    have c1 : ¬ (self.health_ ≤ 40 ∧ 8 ≤ self.mana_) := by omega
    have c2 : ¬ (self.shield_ = 0 ∧ 7 ≤ self.mana_) := by
      rintro ⟨a, b⟩
      rcases h2 with h | h
      · exact h a
      · omega
    have c3 : ¬ (15 ≤ opponent.mana_ ∧ 5 ≤ self.mana_) := by omega
    have c4 : (6 : Int) ≤ self.mana_ := by omega
    simp only [if_neg c1, if_neg c2, if_neg c3, if_pos c4]

theorem ai_rule4_cheapest_damage_witness :
    ((∃ t ∈ SpellFactory.createDefaultSpellBook,
        AffordableDamage (Wizard.mk "Enemy" 80 50 5 []) t) ∧
      (Wizard.mk "Enemy" 80 50 5 []).mana < INT_MAX ∧
      ∃ (i : Nat) (s : Spell),
        AiTurnStrategy.findCheapestAffordableDamage SpellFactory.createDefaultSpellBook
          (Wizard.mk "Enemy" 80 50 5 []) = (i : Int) ∧
        SpellFactory.createDefaultSpellBook.get? i = some s ∧
        AffordableDamage (Wizard.mk "Enemy" 80 50 5 []) s ∧
        ∀ j t, SpellFactory.createDefaultSpellBook.get? j = some t →
          AffordableDamage (Wizard.mk "Enemy" 80 50 5 []) t →
          s.manaCost ≤ t.manaCost ∧ (j < i → s.manaCost < t.manaCost)) ∧
    (((Wizard.mk "Enemy" 80 50 5 []).health > 40 ∨ (Wizard.mk "Enemy" 80 50 5 []).mana < 8) ∧
      ((Wizard.mk "Enemy" 80 50 5 []).shield ≠ 0 ∨ (Wizard.mk "Enemy" 80 50 5 []).mana < 7) ∧
      ((Wizard.mk "Player" 100 5 0 []).mana < 15 ∨ (Wizard.mk "Enemy" 80 50 5 []).mana < 5) ∧
      (Wizard.mk "Enemy" 80 50 5 []).mana ≥ 6 ∧
      (AiTurnStrategy.chooseSpellIndex (Wizard.mk "Enemy" 80 50 5 [])
          (Wizard.mk "Player" 100 5 0 []) SpellFactory.createDefaultSpellBook = some 1 ∧
        (SpellFactory.createDefaultSpellBook.get? 1).map Spell.name = some "Ice Spike")) :=
  ⟨⟨by decide, by decide,
    (ai_rule4_cheapest_damage.1 SpellFactory.createDefaultSpellBook
      (Wizard.mk "Enemy" 80 50 5 [])).2 (by decide) (by decide)⟩,
   ⟨by decide, by decide, by decide, by decide,
    ai_rule4_cheapest_damage.2 (Wizard.mk "Enemy" 80 50 5 []) (Wizard.mk "Player" 100 5 0 [])
      (by decide) (by decide) (by decide) (by decide)⟩⟩

/-- C12. AI rule 5 (fallback): for every non-empty spellbook `findCheapestSpell`
returns the smallest index `i` whose cost is minimal (no spell is cheaper
than the one at `i`, and every spell at a smaller index is strictly dearer);
the caster's mana is not an input of the function.  Consequently, with the
default spellbook, whenever none of rules 1-4 fires, and in particular for
every self with `mana < 5` (mana 0 included), `chooseSpellIndex` returns
index 5, "Mana Surge". -/
theorem ai_rule5_fallback :
    (∀ spells : List Spell, spells ≠ [] →
      ∃ (i : Nat) (s : Spell),
        AiTurnStrategy.findCheapestSpell spells = some (i : Int) ∧
        spells.get? i = some s ∧
        ∀ j t, spells.get? j = some t →
          s.manaCost ≤ t.manaCost ∧ (j < i → s.manaCost < t.manaCost)) ∧
    (∀ self opponent : Wizard,
      (self.health > 40 ∨ self.mana < 8) → (self.shield ≠ 0 ∨ self.mana < 7) →
      (opponent.mana < 15 ∨ self.mana < 5) → self.mana < 6 →
      AiTurnStrategy.chooseSpellIndex self opponent SpellFactory.createDefaultSpellBook
        = some 5 ∧
      (SpellFactory.createDefaultSpellBook.get? 5).map Spell.name = some "Mana Surge") ∧
    (∀ self opponent : Wizard, self.mana < 5 →
      AiTurnStrategy.chooseSpellIndex self opponent SpellFactory.createDefaultSpellBook
        = some 5) := by
  refine ⟨?_, ?_, ?_⟩
  · intro spells hne
    cases spells with
    | nil => exact absurd rfl hne
    | cons s0 rest =>
      simp only [AiTurnStrategy.findCheapestSpell, findCheapestSpellLoop_eq]
      rcases cheapestLoop_spec (fun _ => True) rest 1 (0, s0.manaCost) with
        ⟨heq, hall⟩ | ⟨k, s, hk, _, heq, hlt, hmin⟩
      · refine ⟨0, s0, by rw [heq]; rfl, rfl, ?_⟩
        intro j t hj
        cases j with
        | zero =>
          simp only [List.get?_cons_zero, Option.some.injEq] at hj
          subst hj
          exact ⟨le_refl _, fun h => absurd h (Nat.lt_irrefl 0)⟩
        | succ j =>
          simp only [List.get?_cons_succ] at hj
          exact ⟨hall t (List.get?_mem hj) trivial, fun h => absurd h (Nat.not_lt_zero _)⟩
      · refine ⟨k + 1, s, ?_, by simpa using hk, ?_⟩
        · rw [heq]
          simp only [Option.some.injEq]
          push_cast
          omega
        · intro j t hj
          simp only at hlt
          cases j with
          | zero =>
            simp only [List.get?_cons_zero, Option.some.injEq] at hj
            subst hj
            exact ⟨le_of_lt hlt, fun _ => hlt⟩
          | succ j =>
            simp only [List.get?_cons_succ] at hj
            have := hmin j t hj trivial
            exact ⟨this.1, fun h => this.2 (by omega)⟩
  · intro self opponent h1 h2 h3 h4
    refine ⟨?_, by decide⟩
    simp only [Wizard.health, Wizard.mana, Wizard.shield] at h1 h2 h3 h4
    rw [chooseSpellIndex_default]
    have c1 : ¬ (self.health_ ≤ 40 ∧ 8 ≤ self.mana_) := by omega
    have c2 : ¬ (self.shield_ = 0 ∧ 7 ≤ self.mana_) := by omega
    have c3 : ¬ (15 ≤ opponent.mana_ ∧ 5 ≤ self.mana_) := by omega
    have c4 : ¬ (6 : Int) ≤ self.mana_ := by omega
    simp only [if_neg c1, if_neg c2, if_neg c3, if_neg c4]
  · intro self opponent h
    simp only [Wizard.mana] at h
    rw [chooseSpellIndex_default]
    have c1 : ¬ (self.health_ ≤ 40 ∧ 8 ≤ self.mana_) := by omega
    have c2 : ¬ (self.shield_ = 0 ∧ 7 ≤ self.mana_) := by omega
    have c3 : ¬ (15 ≤ opponent.mana_ ∧ 5 ≤ self.mana_) := by omega
    have c4 : ¬ (6 : Int) ≤ self.mana_ := by omega
    simp only [if_neg c1, if_neg c2, if_neg c3, if_neg c4]

theorem ai_rule5_fallback_witness :
    (SpellFactory.createDefaultSpellBook ≠ [] ∧
      ∃ (i : Nat) (s : Spell),
        AiTurnStrategy.findCheapestSpell SpellFactory.createDefaultSpellBook
          = some (i : Int) ∧
        SpellFactory.createDefaultSpellBook.get? i = some s ∧
        ∀ j t, SpellFactory.createDefaultSpellBook.get? j = some t →
          s.manaCost ≤ t.manaCost ∧ (j < i → s.manaCost < t.manaCost)) ∧
    (((Wizard.mk "Enemy" 80 5 5 []).health > 40 ∨ (Wizard.mk "Enemy" 80 5 5 []).mana < 8) ∧
      ((Wizard.mk "Enemy" 80 5 5 []).shield ≠ 0 ∨ (Wizard.mk "Enemy" 80 5 5 []).mana < 7) ∧
      ((Wizard.mk "Player" 100 10 0 []).mana < 15 ∨ (Wizard.mk "Enemy" 80 5 5 []).mana < 5) ∧
      (Wizard.mk "Enemy" 80 5 5 []).mana < 6 ∧
      (AiTurnStrategy.chooseSpellIndex (Wizard.mk "Enemy" 80 5 5 [])
          (Wizard.mk "Player" 100 10 0 []) SpellFactory.createDefaultSpellBook = some 5 ∧
        (SpellFactory.createDefaultSpellBook.get? 5).map Spell.name = some "Mana Surge")) ∧
    ((Wizard.mk "Enemy" 30 0 0 []).mana < 5 ∧
      AiTurnStrategy.chooseSpellIndex (Wizard.mk "Enemy" 30 0 0 [])
        (Wizard.mk "Player" 100 50 0 []) SpellFactory.createDefaultSpellBook = some 5) :=
  ⟨⟨by decide, ai_rule5_fallback.1 SpellFactory.createDefaultSpellBook (by decide)⟩,
   ⟨by decide, by decide, by decide, by decide,
    ai_rule5_fallback.2.1 (Wizard.mk "Enemy" 80 5 5 []) (Wizard.mk "Player" 100 10 0 [])
      (by decide) (by decide) (by decide) (by decide)⟩,
   ⟨by decide,
    ai_rule5_fallback.2.2 (Wizard.mk "Enemy" 30 0 0 []) (Wizard.mk "Player" 100 50 0 [])
      (by decide)⟩⟩

/-! ## The strategy returns a valid index -/

/-- The loop of `findByName` returns -1 or an index inside the scanned part. -/
theorem findByNameLoop_range (name : String) :
    ∀ (rest : List Spell) (i : Nat),
      AiTurnStrategy.findByNameLoop name rest i = -1 ∨
      ((i : Int) ≤ AiTurnStrategy.findByNameLoop name rest i ∧
        AiTurnStrategy.findByNameLoop name rest i < ((i + rest.length : Nat) : Int)) := by
  intro rest
  induction rest with
  | nil => intro i; left; rfl
  | cons a rest ih =>
    intro i
    simp only [AiTurnStrategy.findByNameLoop]
    split_ifs with h
    · right
      simp only [List.length_cons]
      push_cast
      omega
    · rcases ih (i + 1) with h1 | ⟨h1, h2⟩
      · left; exact h1
      · right
        simp only [List.length_cons]
        push_cast at h1 h2 ⊢
        omega

/-- The function `findByName` returns -1 or an index of the spellbook. -/
theorem findByName_range (spells : List Spell) (name : String) :
    AiTurnStrategy.findByName spells name = -1 ∨
    (0 ≤ AiTurnStrategy.findByName spells name ∧
      AiTurnStrategy.findByName spells name < (spells.length : Int)) := by
  rcases findByNameLoop_range name spells 0 with h | ⟨h1, h2⟩
  · left; exact h
  · right
    simp only [AiTurnStrategy.findByName]
    push_cast at h1 h2
    omega

/-- A rule condition whose index is -1 or inside the spellbook is evaluated
without leaving the vector. -/
theorem ruleFires_isSome (cond : Bool) (index : Int) (self : Wizard) (spells : List Spell)
    (h : index = -1 ∨ (0 ≤ index ∧ index < (spells.length : Int))) :
    ∃ b, AiTurnStrategy.ruleFires cond index self spells = some b := by
  simp only [AiTurnStrategy.ruleFires]
  split_ifs with h1 h2
  · have h3 : index ≠ -1 := by
      simp only [Bool.and_eq_true, decide_eq_true_eq] at h1
      exact h1.2
    omega
  · have h3 : index ≠ -1 := by
      simp only [Bool.and_eq_true, decide_eq_true_eq] at h1
      exact h1.2
    have h4 : index.toNat < spells.length := by omega
    cases hg : spells.get? index.toNat with
    | none =>
      rw [List.get?_eq_none] at hg
      omega
    | some s => exact ⟨_, rfl⟩
  · exact ⟨false, rfl⟩

/-- The function `findCheapestAffordableDamage` returns -1 or an index of the
spellbook. -/
theorem findCheapestAffordableDamage_range (spells : List Spell) (self : Wizard) :
    AiTurnStrategy.findCheapestAffordableDamage spells self = -1 ∨
    (0 ≤ AiTurnStrategy.findCheapestAffordableDamage spells self ∧
      AiTurnStrategy.findCheapestAffordableDamage spells self < (spells.length : Int)) := by
  simp only [AiTurnStrategy.findCheapestAffordableDamage, findCheapestAffordableDamageLoop_eq]
  rcases cheapestLoop_spec (AffordableDamage self) spells 0 (-1, INT_MAX) with
    ⟨heq, _⟩ | ⟨k, s, hk, _, heq, _, _⟩
  · left; rw [heq]
  · right
    have hlt : k < spells.length := by
      by_contra hge
      have := List.get?_eq_none.mpr (not_lt.mp hge)
      rw [this] at hk
      exact absurd hk (by simp)
    rw [heq]
    simp only
    push_cast
    omega

/-- The function `findCheapestSpell` returns an index of a non-empty
spellbook. -/
theorem findCheapestSpell_range (spells : List Spell) (hne : spells ≠ []) :
    ∃ i, AiTurnStrategy.findCheapestSpell spells = some i ∧
      0 ≤ i ∧ i < (spells.length : Int) := by
  cases spells with
  | nil => exact absurd rfl hne
  | cons s0 rest =>
    simp only [AiTurnStrategy.findCheapestSpell, findCheapestSpellLoop_eq]
    rcases cheapestLoop_spec (fun _ => True) rest 1 (0, s0.manaCost) with
      ⟨heq, _⟩ | ⟨k, s, hk, _, heq, _, _⟩
    · refine ⟨_, rfl, ?_, ?_⟩
      · rw [heq]
      · rw [heq]
        simp only [List.length_cons]
        push_cast
        omega
    · have hlt : k < rest.length := by
        by_contra hge
        have := List.get?_eq_none.mpr (not_lt.mp hge)
        rw [this] at hk
        exact absurd hk (by simp)
      refine ⟨_, rfl, ?_, ?_⟩
      · rw [heq]
        simp only
        push_cast
        omega
      · rw [heq]
        simp only [List.length_cons]
        push_cast
        omega

/-- C13. The rule-based strategy always returns a valid index: for every
non-empty spellbook, with arbitrary names and costs, and every self and
opponent, `chooseSpellIndex` returns (no vector access leaves the spellbook)
and the returned index `i` satisfies `0 ≤ i < spells.size()`. -/
theorem chooseSpellIndex_valid (self opponent : Wizard) (spells : List Spell)
    (hne : spells ≠ []) :
    ∃ i, AiTurnStrategy.chooseSpellIndex self opponent spells = some i ∧
      0 ≤ i ∧ i < (spells.length : Int) := by
  have hheal := findByName_range spells "Healing Light"
  have hshield := findByName_range spells "Magic Shield"
  have hdrain := findByName_range spells "Mana Drain"
  obtain ⟨b1, hb1⟩ := ruleFires_isSome (decide (self.health ≤ 40)) _ self spells hheal
  obtain ⟨b2, hb2⟩ := ruleFires_isSome (decide (self.shield = 0)) _ self spells hshield
  obtain ⟨b3, hb3⟩ := ruleFires_isSome (decide (opponent.mana ≥ 15)) _ self spells hdrain
  simp only [AiTurnStrategy.chooseSpellIndex, hb1, hb2, hb3]
  cases b1 with
  | true =>
    refine ⟨_, rfl, ?_⟩
    rcases hheal with h | h
    · simp [AiTurnStrategy.ruleFires, h] at hb1
    · exact h
  | false =>
    cases b2 with
    | true =>
      refine ⟨_, rfl, ?_⟩
      rcases hshield with h | h
      · simp [AiTurnStrategy.ruleFires, h] at hb2
      · exact h
    | false =>
      cases b3 with
      | true =>
        refine ⟨_, rfl, ?_⟩
        rcases hdrain with h | h
        · simp [AiTurnStrategy.ruleFires, h] at hb3
        · exact h
      | false =>
        simp only
        split_ifs with hd
        · refine ⟨_, rfl, ?_⟩
          rcases findCheapestAffordableDamage_range spells self with h | h
          · exact absurd h hd
          · exact h
        · exact findCheapestSpell_range spells hne

theorem chooseSpellIndex_valid_witness :
    [Spell.DamageSpell "Ice Spike" 6 15, Spell.HealSpell "Balm" 60 5] ≠ [] ∧
    ∃ i, AiTurnStrategy.chooseSpellIndex (Wizard.mk "Enemy" 30 3 0 [])
        (Wizard.mk "Player" 100 50 0 [])
        [Spell.DamageSpell "Ice Spike" 6 15, Spell.HealSpell "Balm" 60 5] = some i ∧
      0 ≤ i ∧
      i < (([Spell.DamageSpell "Ice Spike" 6 15, Spell.HealSpell "Balm" 60 5].length : Nat) : Int) :=
  ⟨by decide,
   chooseSpellIndex_valid (Wizard.mk "Enemy" 30 3 0 []) (Wizard.mk "Player" 100 50 0 [])
     [Spell.DamageSpell "Ice Spike" 6 15, Spell.HealSpell "Balm" 60 5] (by decide)⟩

/-! ## Turns that cast nothing -/

/-- The failure branch shared by the five `cast` overrides. -/
theorem cast_of_not_enough (s : Spell) (caster target : Wizard)
    (h : caster.hasEnoughMana s.manaCost = false) : s.cast caster target = (caster, target) := by
  cases s <;> simp [Spell.cast, h]

/-- Counterexample to C14 as stated: a wizard with the default spellbook and
40 mana whose strategy answers 7 (or -1).  The claim asks for
`min(50, 40 + 4) = 44` mana after the turn; the code returns from `playTurn`
at "Invalid spell index. Turn skipped." before `regenerateMana` is reached,
so the mana is still 40. -/
theorem playTurn_out_of_range_counterexample :
    (Game.playTurn (Wizard.mk "Player" 100 40 0 SpellFactory.createDefaultSpellBook)
        (Wizard.mk "Enemy" 100 50 0 SpellFactory.createDefaultSpellBook)
        (TurnStrategy.answering (fun _ _ _ => 7))).map (fun r => r.1.mana) = some 40 ∧
    (Game.playTurn (Wizard.mk "Player" 100 40 0 SpellFactory.createDefaultSpellBook)
        (Wizard.mk "Enemy" 100 50 0 SpellFactory.createDefaultSpellBook)
        (TurnStrategy.answering (fun _ _ _ => -1))).map (fun r => r.1.mana) = some 40 ∧
    min 50 ((Wizard.mk "Player" 100 40 0 SpellFactory.createDefaultSpellBook).mana + 4) = 44 := by
  decide

/-- C14 (amended). Out-of-range strategy result: for every spellbook and every
index with `index < 0` or `index ≥ spells.size()`, `Game::playTurn` skips
the whole turn: no spell effect is applied and no mana is regenerated, so the
current wizard and the opponent are both exactly as before the turn (health,
mana and shield unchanged). -/
theorem playTurn_out_of_range (current opponent : Wizard) (index : Int)
    (h : index < 0 ∨ index ≥ (current.spellBook.length : Int)) :
    Game.playTurn current opponent (TurnStrategy.answering (fun _ _ _ => index))
      = some (current, opponent) := by
  simp only [Game.playTurn, TurnStrategy.answering]
  split_ifs
  · rfl
  · rfl

theorem playTurn_out_of_range_witness :
    ((7 : Int) < 0 ∨ (7 : Int) ≥
      (((Wizard.mk "Player" 100 40 0 SpellFactory.createDefaultSpellBook).spellBook.length
        : Nat) : Int)) ∧
    Game.playTurn (Wizard.mk "Player" 100 40 0 SpellFactory.createDefaultSpellBook)
        (Wizard.mk "Enemy" 100 50 0 SpellFactory.createDefaultSpellBook)
        (TurnStrategy.answering (fun _ _ _ => 7))
      = some (Wizard.mk "Player" 100 40 0 SpellFactory.createDefaultSpellBook,
          Wizard.mk "Enemy" 100 50 0 SpellFactory.createDefaultSpellBook) :=
  ⟨by decide,
   playTurn_out_of_range (Wizard.mk "Player" 100 40 0 SpellFactory.createDefaultSpellBook)
     (Wizard.mk "Enemy" 100 50 0 SpellFactory.createDefaultSpellBook) 7 (by decide)⟩

/-- C15. A turn whose chosen spell is unaffordable still regenerates mana and
changes nothing else: for every in-range index whose spell costs more than the
current wizard's mana (with `0 ≤ mana ≤ 50`), `Game::playTurn` returns, leaves
the opponent unchanged, leaves the current wizard's health and shield
unchanged, and sets the current wizard's mana to `min(50, mana_before + 4)`. -/
theorem playTurn_unaffordable (current opponent : Wizard) (index : Int) (spell : Spell)
    (h0 : 0 ≤ index) (h1 : index < (current.spellBook.length : Int))
    (hs : current.spellBook.get? index.toNat = some spell)
    (hc : spell.manaCost > current.mana)
    (_hm0 : 0 ≤ current.mana) (_hm1 : current.mana ≤ 50) :
    ∃ r, Game.playTurn current opponent (TurnStrategy.answering (fun _ _ _ => index)) = some r ∧
      r.2 = opponent ∧ r.1.health = current.health ∧ r.1.shield = current.shield ∧
      r.1.mana = min 50 (current.mana + 4) ∧
      r.1 = { current with mana_ := min 50 (current.mana + 4) } := by
  have hm : current.hasEnoughMana spell.manaCost = false := by
    simp only [Wizard.hasEnoughMana, Wizard.mana] at *
    simpa using hc
  have hne : current.spellBook.isEmpty = false := by
    cases hb : current.spellBook with
    | nil => rw [hb] at h1; simp at h1; omega
    | cons a l => rfl
  have hrange : ¬ (index < 0 ∨ index ≥ (current.spellBook.length : Int)) := by omega
  have hregen : (current.regenerateMana Config.MANA_REGEN_PER_TURN)
      = { current with mana_ := min 50 (current.mana + 4) } := by
    simp only [Wizard.mana] at _hm0 _hm1
    simp only [Wizard.regenerateMana, Config.MANA_REGEN_PER_TURN, Config.INITIAL_MANA,
      Wizard.mana, wrapInt]
    congr 1
    split_ifs <;> omega
  refine ⟨(current.regenerateMana Config.MANA_REGEN_PER_TURN, opponent), ?_, rfl, ?_, ?_, ?_, ?_⟩
  · simp only [Game.playTurn, TurnStrategy.answering, hne, hs, if_neg hrange,
      cast_of_not_enough spell current opponent hm]
    simp
  · rw [hregen]; rfl
  · rw [hregen]; rfl
  · rw [hregen]; rfl
  · exact hregen

theorem playTurn_unaffordable_witness :
    (0 : Int) ≤ 0 ∧
    (0 : Int) < (((Wizard.mk "Player" 70 3 5 SpellFactory.createDefaultSpellBook).spellBook.length
      : Nat) : Int) ∧
    (Wizard.mk "Player" 70 3 5 SpellFactory.createDefaultSpellBook).spellBook.get? (0 : Int).toNat
      = some (Spell.DamageSpell "Fireball" 10 25) ∧
    (Spell.DamageSpell "Fireball" 10 25).manaCost
      > (Wizard.mk "Player" 70 3 5 SpellFactory.createDefaultSpellBook).mana ∧
    0 ≤ (Wizard.mk "Player" 70 3 5 SpellFactory.createDefaultSpellBook).mana ∧
    (Wizard.mk "Player" 70 3 5 SpellFactory.createDefaultSpellBook).mana ≤ 50 ∧
    ∃ r, Game.playTurn (Wizard.mk "Player" 70 3 5 SpellFactory.createDefaultSpellBook)
        (Wizard.mk "Enemy" 100 50 0 SpellFactory.createDefaultSpellBook)
        (TurnStrategy.answering (fun _ _ _ => 0)) = some r ∧
      r.2 = Wizard.mk "Enemy" 100 50 0 SpellFactory.createDefaultSpellBook ∧
      r.1.health = (Wizard.mk "Player" 70 3 5 SpellFactory.createDefaultSpellBook).health ∧
      r.1.shield = (Wizard.mk "Player" 70 3 5 SpellFactory.createDefaultSpellBook).shield ∧
      r.1.mana = min 50 ((Wizard.mk "Player" 70 3 5 SpellFactory.createDefaultSpellBook).mana + 4) ∧
      r.1 = { (Wizard.mk "Player" 70 3 5 SpellFactory.createDefaultSpellBook) with
        mana_ := min 50 ((Wizard.mk "Player" 70 3 5 SpellFactory.createDefaultSpellBook).mana + 4) } :=
  ⟨by decide, by decide, by decide, by decide, by decide, by decide,
   playTurn_unaffordable (Wizard.mk "Player" 70 3 5 SpellFactory.createDefaultSpellBook)
     (Wizard.mk "Enemy" 100 50 0 SpellFactory.createDefaultSpellBook) 0
     (Spell.DamageSpell "Fireball" 10 25)
     (by decide) (by decide) (by decide) (by decide) (by decide) (by decide)⟩

/-! ## Self-target spells -/

/-- C17. Self-target-only spells never touch the target: for Heal, Shield and
ManaRegen spells of any name, cost and magnitude, and for every caster and
(distinct) target, `cast` returns the target exactly as it was (health, mana,
shield and every other field), whether the cast succeeds or fails for lack of
mana. -/
theorem self_target_spells_leave_target (name : String) (cost amount : Int)
    (caster target : Wizard) :
    ((Spell.HealSpell name cost amount).cast caster target).2 = target ∧
    ((Spell.ShieldSpell name cost amount).cast caster target).2 = target ∧
    ((Spell.ManaRegenSpell name cost amount).cast caster target).2 = target := by
  refine ⟨?_, ?_, ?_⟩ <;>
    · simp only [Spell.cast]
      split_ifs <;> rfl

/-- The successful branch of `ManaRegenSpell::cast`. -/
theorem cast_manaRegen_of_enough (name : String) (cost manaRestore : Int)
    (caster target : Wizard) (hm : caster.hasEnoughMana cost = true) :
    (Spell.ManaRegenSpell name cost manaRestore).cast caster target
      = ((caster.spendMana cost).changeMana manaRestore, target) := by
  simp [Spell.cast, Spell.manaCost, Spell.payMana, hm]

/-- C18. Mana is spent before the effect is applied: for every caster with
`1 ≤ mana ≤ 50`, the (successful) cast of the default Mana Surge (cost 1,
restore 15) leaves `caster.mana = min(50, (mana_before - 1) + 15)` and leaves
the caster's health and shield unchanged; a caster at 50 mana ends the cast
at 50. -/
theorem manaSurge_caster (caster target : Wizard)
    (h1 : 1 ≤ caster.mana) (h2 : caster.mana ≤ 50) :
    ((Spell.ManaRegenSpell "Mana Surge" Config.MANA_REGEN_SPELL_COST
        Config.MANA_REGEN_SPELL_AMOUNT).cast caster target).1.mana
      = min 50 ((caster.mana - 1) + 15) ∧
    ((Spell.ManaRegenSpell "Mana Surge" Config.MANA_REGEN_SPELL_COST
        Config.MANA_REGEN_SPELL_AMOUNT).cast caster target).1.health = caster.health ∧
    ((Spell.ManaRegenSpell "Mana Surge" Config.MANA_REGEN_SPELL_COST
        Config.MANA_REGEN_SPELL_AMOUNT).cast caster target).1.shield = caster.shield ∧
    (caster.mana = 50 →
      ((Spell.ManaRegenSpell "Mana Surge" Config.MANA_REGEN_SPELL_COST
        Config.MANA_REGEN_SPELL_AMOUNT).cast caster target).1.mana = 50) := by
  have hm : caster.hasEnoughMana Config.MANA_REGEN_SPELL_COST = true := by
    simp only [Wizard.hasEnoughMana, Config.MANA_REGEN_SPELL_COST, Wizard.mana] at *
    simpa using h1
  rw [cast_manaRegen_of_enough _ _ _ caster target hm]
  obtain ⟨cn, ch, cm, cs, cb⟩ := caster
  simp only [Wizard.mana] at h1 h2
  simp only [Wizard.spendMana, Wizard.changeMana, Wizard.mana, Wizard.health, Wizard.shield,
    Config.MANA_REGEN_SPELL_COST, Config.MANA_REGEN_SPELL_AMOUNT, Config.INITIAL_MANA, wrapInt]
  refine ⟨?_, trivial, trivial, ?_⟩
  · split_ifs <;> omega
  · intro h50
    split_ifs <;> omega

theorem manaSurge_caster_witness :
    1 ≤ (Wizard.mk "Player" 100 50 0 []).mana ∧ (Wizard.mk "Player" 100 50 0 []).mana ≤ 50 ∧
    (((Spell.ManaRegenSpell "Mana Surge" Config.MANA_REGEN_SPELL_COST
        Config.MANA_REGEN_SPELL_AMOUNT).cast (Wizard.mk "Player" 100 50 0 [])
        (Wizard.mk "Enemy" 100 50 0 [])).1.mana
      = min 50 (((Wizard.mk "Player" 100 50 0 []).mana - 1) + 15) ∧
    ((Spell.ManaRegenSpell "Mana Surge" Config.MANA_REGEN_SPELL_COST
        Config.MANA_REGEN_SPELL_AMOUNT).cast (Wizard.mk "Player" 100 50 0 [])
        (Wizard.mk "Enemy" 100 50 0 [])).1.health = (Wizard.mk "Player" 100 50 0 []).health ∧
    ((Spell.ManaRegenSpell "Mana Surge" Config.MANA_REGEN_SPELL_COST
        Config.MANA_REGEN_SPELL_AMOUNT).cast (Wizard.mk "Player" 100 50 0 [])
        (Wizard.mk "Enemy" 100 50 0 [])).1.shield = (Wizard.mk "Player" 100 50 0 []).shield ∧
    ((Wizard.mk "Player" 100 50 0 []).mana = 50 →
      ((Spell.ManaRegenSpell "Mana Surge" Config.MANA_REGEN_SPELL_COST
        Config.MANA_REGEN_SPELL_AMOUNT).cast (Wizard.mk "Player" 100 50 0 [])
        (Wizard.mk "Enemy" 100 50 0 [])).1.mana = 50)) :=
  ⟨by decide, by decide,
   manaSurge_caster (Wizard.mk "Player" 100 50 0 []) (Wizard.mk "Enemy" 100 50 0 [])
     (by decide) (by decide)⟩

/-! ## Affordability of the chosen spell -/

/-- C20. With the default spellbook, the spell chosen by `chooseSpellIndex` is
affordable exactly when the caster has any mana: for every self with
`0 ≤ mana ≤ 50` and every opponent, the strategy returns an index `i` of the
spellbook with `self.mana ≥ manaCost(spells[i])` if and only if
`self.mana ≥ 1`, and `i` is never 0, the index of "Fireball". -/
theorem chosen_spell_affordable_iff (self opponent : Wizard)
    (_h0 : 0 ≤ self.mana) (_h1 : self.mana ≤ 50) :
    ∃ (i : Int) (s : Spell),
      AiTurnStrategy.chooseSpellIndex self opponent SpellFactory.createDefaultSpellBook
        = some i ∧
      SpellFactory.createDefaultSpellBook.get? i.toNat = some s ∧ 0 ≤ i ∧
      (self.mana ≥ s.manaCost ↔ self.mana ≥ 1) ∧
      i ≠ 0 ∧
      (SpellFactory.createDefaultSpellBook.get? 0).map Spell.name = some "Fireball" := by
  rw [chooseSpellIndex_default]
  simp only [Wizard.mana]
  split_ifs with c1 c2 c3 c4
  · exact ⟨2, _, rfl, rfl, by decide, by
      simp only [Spell.manaCost, Config.HEAL_COST]; omega, by decide, by decide⟩
  · exact ⟨3, _, rfl, rfl, by decide, by
      simp only [Spell.manaCost, Config.SHIELD_COST]; omega, by decide, by decide⟩
  · exact ⟨4, _, rfl, rfl, by decide, by
      simp only [Spell.manaCost, Config.MANA_DRAIN_COST]; omega, by decide, by decide⟩
  · exact ⟨1, _, rfl, rfl, by decide, by
      simp only [Spell.manaCost, Config.ICE_SPIKE_COST]; omega, by decide, by decide⟩
  · exact ⟨5, _, rfl, rfl, by decide, by
      simp only [Spell.manaCost, Config.MANA_REGEN_SPELL_COST], by decide, by decide⟩

theorem chosen_spell_affordable_iff_witness :
    0 ≤ (Wizard.mk "Enemy" 80 0 5 []).mana ∧ (Wizard.mk "Enemy" 80 0 5 []).mana ≤ 50 ∧
    ∃ (i : Int) (s : Spell),
      AiTurnStrategy.chooseSpellIndex (Wizard.mk "Enemy" 80 0 5 [])
        (Wizard.mk "Player" 100 50 0 []) SpellFactory.createDefaultSpellBook = some i ∧
      SpellFactory.createDefaultSpellBook.get? i.toNat = some s ∧ 0 ≤ i ∧
      ((Wizard.mk "Enemy" 80 0 5 []).mana ≥ s.manaCost ↔
        (Wizard.mk "Enemy" 80 0 5 []).mana ≥ 1) ∧
      i ≠ 0 ∧
      (SpellFactory.createDefaultSpellBook.get? 0).map Spell.name = some "Fireball" :=
  ⟨by decide, by decide,
   chosen_spell_affordable_iff (Wizard.mk "Enemy" 80 0 5 []) (Wizard.mk "Player" 100 50 0 [])
     (by decide) (by decide)⟩

/-! ## The draw branch -/

/-- A cast of a spell of the default spellbook never kills its caster, whose
health is at most 100. -/
theorem cast_default_caster_alive (s : Spell) (hs : s ∈ SpellFactory.createDefaultSpellBook)
    (caster target : Wizard) (h : caster.isAlive = true) (hh : caster.health_ ≤ 100) :
    (s.cast caster target).1.isAlive = true := by
  obtain ⟨cn, ch, cm, cs, cb⟩ := caster
  simp only [Wizard.isAlive, decide_eq_true_eq] at h
  simp only at hh
  have hw : wrapInt (ch + 20) = ch + 20 :=
    wrapInt_of_inRange _ (by simp only [INT_MIN]; omega) (by simp only [INT_MAX]; omega)
  simp only [SpellFactory.createDefaultSpellBook, List.mem_cons, List.mem_singleton,
    List.not_mem_nil, or_false] at hs
  rcases hs with rfl | rfl | rfl | rfl | rfl | rfl
  all_goals
    simp only [Spell.cast, Spell.payMana, Spell.manaCost, Wizard.spendMana, Wizard.heal,
      Wizard.addShield, Wizard.changeMana, Wizard.isAlive, Config.HEAL_AMOUNT,
      Config.INITIAL_HEALTH, hw]
    split_ifs <;> simp <;> omega

/-- A turn of a default duel never kills the wizard who plays it. -/
theorem playTurn_default_current_alive (strategy : TurnStrategy)
    (current opponent : Wizard) (r : Wizard × Wizard)
    (hbook : current.spellBook_ = SpellFactory.createDefaultSpellBook)
    (halive : current.isAlive = true) (hh : current.health_ ≤ 100)
    (h : Game.playTurn current opponent strategy = some r) : r.1.isAlive = true := by
  simp only [Game.playTurn] at h
  split_ifs at h with hempty
  · simp only [Option.some.injEq] at h
    rw [← h]; exact halive
  · cases hstr : strategy current opponent current.spellBook with
    | none => rw [hstr] at h; simp at h
    | some index =>
      rw [hstr] at h
      simp only at h
      split_ifs at h with hrange
      · simp only [Option.some.injEq] at h
        rw [← h]; exact halive
      · cases hget : current.spellBook.get? index.toNat with
        | none => rw [hget] at h; simp at h
        | some spell =>
          rw [hget] at h
          simp only [Option.some.injEq] at h
          have hmem : spell ∈ SpellFactory.createDefaultSpellBook := by
            have := List.get?_mem hget
            rw [Wizard.spellBook, hbook] at this
            exact this
          have hc := cast_default_caster_alive spell hmem current opponent halive hh
          rw [← h]
          simp only [Wizard.isAlive, Wizard.regenerateMana] at hc ⊢
          exact hc

/-- In the loop of `Game::run` of a default duel at least one wizard is alive:
at the loop condition if one was alive there, and after the `break` check
if the enemy was alive there. -/
theorem runTurns_one_alive (turns : List (Wizard → Wizard → List Spell → Int)) :
    ∀ (atLoopHead : Bool) (g : Game) (B : Int), g.player_.Ok B → g.enemy_.Ok B →
      (atLoopHead = true → g.player_.isAlive = true ∨ g.enemy_.isAlive = true) →
      (atLoopHead = false → g.enemy_.isAlive = true) →
      ∃ g1, Game.runTurns (turns.map TurnStrategy.answering) atLoopHead g = some g1 ∧
        (g1.player_.isAlive = true ∨ g1.enemy_.isAlive = true) := by
  induction turns with
  | nil =>
    intro b g B _ _ ht hf
    refine ⟨g, by simp [Game.runTurns], ?_⟩
    cases b with
    | true => exact ht rfl
    | false => exact Or.inr (hf rfl)
  | cons f rest ih =>
    intro b g B hp he ht hf
    cases b with
    | true =>
      simp only [List.map_cons, Game.runTurns]
      split_ifs with halive
      · obtain ⟨r, hr, hr1, hr2⟩ := playTurn_default_ok f g.player_ g.enemy_ B B hp he
        have hpa : g.player_.isAlive = true := by
          simp only [Bool.and_eq_true] at halive
          exact halive.1
        have hra := playTurn_default_current_alive _ g.player_ g.enemy_ r hp.2.1 hpa hp.1.2.1 hr
        rw [hr]
        simp only []
        split_ifs with hdead
        · exact ⟨_, rfl, Or.inl hra⟩
        · have hea : r.2.isAlive = true := by simpa using hdead
          exact ih false ⟨r.1, r.2⟩ (B + 18) hr1 (hr2.mono (by omega))
            (fun h => absurd h (by decide)) (fun _ => hea)
      · exact ⟨g, rfl, ht rfl⟩
    | false =>
      simp only [List.map_cons, Game.runTurns]
      obtain ⟨r, hr, hr1, hr2⟩ := playTurn_default_ok f g.enemy_ g.player_ B B he hp
      have hra := playTurn_default_current_alive _ g.enemy_ g.player_ r he.2.1 (hf rfl)
        he.1.2.1 hr
      rw [hr]
      simp only []
      exact ih true ⟨r.2, r.1⟩ (B + 18) (hr2.mono (by omega)) hr1
        (fun _ => Or.inr hra) (fun h => absurd h (by decide))

/-- C19. The draw outcome is unreachable: starting from the two fresh wizards
of `Game()`, for every finite sequence of strategy answers (any integers) fed
to the loop of `Game::run`, the loop returns a state in which at least one of
the two wizards is alive.  Hence at a state where the loop has exited (not
both alive) exactly one wizard is dead, and `printResult` takes one of its
first two branches, never the final draw branch. -/
theorem draw_unreachable (turns : List (Wizard → Wizard → List Spell → Int)) :
    ∃ g, Game.runTurns (turns.map TurnStrategy.answering) true Game.new = some g ∧
      (g.player_.isAlive = true ∨ g.enemy_.isAlive = true) ∧
      (¬ (g.player_.isAlive = true ∧ g.enemy_.isAlive = true) →
        (g.player_.isAlive = true ∧ g.enemy_.isAlive = false ∨
          g.player_.isAlive = false ∧ g.enemy_.isAlive = true) ∧
        g.printResult ≠ Game.Result.draw) := by
  obtain ⟨g, hg, hone⟩ := runTurns_one_alive turns true Game.new 0 Game.new_ok.1
    Game.new_ok.2 (fun _ => Or.inl (by decide)) (fun h => absurd h (by decide))
  refine ⟨g, hg, hone, ?_⟩
  intro hexit
  simp only [Game.printResult]
  cases hp : g.player_.isAlive <;> cases he : g.enemy_.isAlive <;> simp_all

theorem draw_unreachable_witness :
    (∃ g, Game.runTurns
        ((List.replicate 7 (fun _ _ _ => (0 : Int))).map TurnStrategy.answering) true Game.new
          = some g ∧
      (g.player_.isAlive = true ∨ g.enemy_.isAlive = true) ∧
      (¬ (g.player_.isAlive = true ∧ g.enemy_.isAlive = true) →
        (g.player_.isAlive = true ∧ g.enemy_.isAlive = false ∨
          g.player_.isAlive = false ∧ g.enemy_.isAlive = true) ∧
        g.printResult ≠ Game.Result.draw)) ∧
    (Game.runTurns
        ((List.replicate 7 (fun _ _ _ => (0 : Int))).map TurnStrategy.answering) true
        Game.new).map (fun g => (g.player_.isAlive, g.enemy_.isAlive, g.printResult))
      = some (true, false, Game.Result.playerWins) :=
  ⟨draw_unreachable (List.replicate 7 (fun _ _ _ => (0 : Int))), by decide⟩

/-! ## The duel between two rule-based strategies -/

/-- Once the loop of `Game::run` has exited, further fuel changes nothing. -/
theorem Game.run_of_exited (ps es : TurnStrategy) (m : Nat) (g : Game)
    (h : (g.player_.isAlive && g.enemy_.isAlive) = false) : Game.run ps es m g = some g := by
  cases m with
  | zero => rfl
  | succ m => simp [Game.run, h]

/-- Running `n + m` iterations is running `n` and then `m`. -/
theorem Game.run_add (ps es : TurnStrategy) (m : Nat) :
    ∀ (n : Nat) (g : Game),
      Game.run ps es (n + m) g = (Game.run ps es n g).bind (Game.run ps es m) := by
  intro n
  induction n with
  | zero => intro g; simp [Game.run]
  | succ n ih =>
    intro g
    have hnm : n + 1 + m = (n + m) + 1 := by omega
    rw [hnm]
    simp only [Game.run]
    cases halive : (g.player_.isAlive && g.enemy_.isAlive) with
    | false =>
      simp only [Bool.false_eq_true, if_false, Option.some_bind]
      exact (Game.run_of_exited ps es m g halive).symm
    | true =>
      simp only [if_true]
      cases h1 : Game.playTurn g.player_ g.enemy_ ps with
      | none => rfl
      | some r =>
        simp only []
        cases hdead : r.2.isAlive with
        | false =>
          simp only [Bool.not_false, if_true, Option.some_bind]
          exact (Game.run_of_exited ps es m ⟨r.1, r.2⟩ (by simp [hdead])).symm
        | true =>
          simp only [Bool.not_true, Bool.false_eq_true, if_false]
          cases h2 : Game.playTurn r.2 r.1 es with
          | none => rfl
          | some r2 => exact ih ⟨r2.2, r2.1⟩

/-- If both wizards are alive after `n + m` iterations, they are after `n`. -/
theorem Game.run_alive_of_later (ps es : TurnStrategy) (n m : Nat) (g g1 : Game)
    (h : Game.run ps es (n + m) g = some g1)
    (halive : (g1.player_.isAlive && g1.enemy_.isAlive) = true) :
    ∃ g0, Game.run ps es n g = some g0 ∧
      (g0.player_.isAlive && g0.enemy_.isAlive) = true := by
  rw [Game.run_add] at h
  cases h0 : Game.run ps es n g with
  | none => rw [h0] at h; simp at h
  | some g0 =>
    refine ⟨g0, rfl, ?_⟩
    rw [h0, Option.some_bind] at h
    cases ha : (g0.player_.isAlive && g0.enemy_.isAlive) with
    | true => rfl
    | false =>
      rw [Game.run_of_exited ps es m g0 ha] at h
      simp only [Option.some.injEq] at h
      rw [h] at ha
      rw [ha] at halive
      exact absurd halive (by decide)

set_option maxRecDepth 100000 in
/-- The first 96 rounds of the duel between two rule-based strategies. -/
theorem run_ai_prefix :
    Game.run AiTurnStrategy.chooseSpellIndex AiTurnStrategy.chooseSpellIndex 96 Game.new
      = some aiCycleState := by
  decide

set_option maxRecDepth 100000 in
/-- From the state after 96 rounds, 349 more rounds lead back to it. -/
theorem run_ai_cycle :
    Game.run AiTurnStrategy.chooseSpellIndex AiTurnStrategy.chooseSpellIndex 349 aiCycleState
      = some aiCycleState := by
  decide

/-- The state after 96 rounds recurs every 349 rounds. -/
theorem run_ai_periodic (q : Nat) :
    Game.run AiTurnStrategy.chooseSpellIndex AiTurnStrategy.chooseSpellIndex (96 + 349 * q)
      Game.new = some aiCycleState := by
  induction q with
  | zero => exact run_ai_prefix
  | succ q ih =>
    have h : 96 + 349 * (q + 1) = (96 + 349 * q) + 349 := by ring
    rw [h, Game.run_add, ih, Option.some_bind]
    exact run_ai_cycle

/-- After any number of rounds of the duel between two rule-based strategies
both wizards are alive. -/
theorem run_ai_alive (N : Nat) :
    ∃ g, Game.run AiTurnStrategy.chooseSpellIndex AiTurnStrategy.chooseSpellIndex N Game.new
        = some g ∧ (g.player_.isAlive && g.enemy_.isAlive) = true := by
  have h : N + (96 + 348 * N) = 96 + 349 * N := by ring
  exact Game.run_alive_of_later _ _ N (96 + 348 * N) Game.new aiCycleState
    (by rw [h]; exact run_ai_periodic N) (by decide)

/-- Counterexample to C16 as stated: there is no number of rounds after which
the loop of `Game::run`, played by two rule-based strategies from the fresh
state, has reached a state with a dead wizard. -/
theorem ai_duel_no_terminal_state :
    ¬ ∃ (N : Nat) (g : Game),
      Game.run AiTurnStrategy.chooseSpellIndex AiTurnStrategy.chooseSpellIndex N Game.new
        = some g ∧ (g.player_.health ≤ 0 ∨ g.enemy_.health ≤ 0) := by
  rintro ⟨N, g, hg, hdead⟩
  obtain ⟨g1, hg1, halive⟩ := run_ai_alive N
  rw [hg] at hg1
  simp only [Option.some.injEq] at hg1
  subst hg1
  simp only [Wizard.isAlive, Bool.and_eq_true, decide_eq_true_eq] at halive
  simp only [Wizard.health] at hdead
  omega

/-- C16 (amended). The duel between two rule-based strategies does not
terminate: when both sides of the `Game::run` loop use `AiTurnStrategy` and
both wizards start with health 100, mana 50, shield 0 and the default
spellbook, then after every number `N` of rounds the loop returns a state in
which both wizards have `health > 0`, so no terminal state is ever reached.
The state after 96 rounds (player 38 health, 8 mana, shield 0; enemy 45
health, 7 mana, shield 3) recurs every 349 rounds. -/
theorem ai_duel_runs_forever (N : Nat) :
    (∃ g, Game.run AiTurnStrategy.chooseSpellIndex AiTurnStrategy.chooseSpellIndex N Game.new
        = some g ∧ g.player_.health > 0 ∧ g.enemy_.health > 0) ∧
    Game.run AiTurnStrategy.chooseSpellIndex AiTurnStrategy.chooseSpellIndex (96 + 349 * N)
      Game.new = some aiCycleState := by
  refine ⟨?_, run_ai_periodic N⟩
  obtain ⟨g, hg, halive⟩ := run_ai_alive N
  simp only [Wizard.isAlive, Bool.and_eq_true, decide_eq_true_eq] at halive
  exact ⟨g, hg, halive.1, halive.2⟩

end WizardDuel
